import Mathlib

/-!
Verification of the Cell_Image_Analyzer repository's group-based file
organization, table construction, incremental sheet preview and image
loading logic, shallowly embedded from the Python sources:

* `src/src/gui/workspaces/input_tabs/groups_tab.py` (the Grouper),
* `src/src/gui/workspaces/analysis_tabs/pickle_datafile_tab.py` (Start New),
* `src/src/gui/workspaces/output_workspace.py` (preview manager, sheet
  renderer, silent image loader).

Conventions of the embedding:

* Python strings are Lean `String`s; `os.path.basename` is modelled for
  POSIX separators (`/`); Python floats appearing in the claims are
  modelled as exact rationals (`ℚ`), with `NaN` / a missing value
  modelled as `Option.none`.
* Python dicts keyed by strings are modelled as insertion-ordered
  association lists (a dict never holds a key twice, which becomes a
  `Nodup` side condition on the model).
* Qt widgets are modelled by the data that determines their rendered
  content; the matplotlib rendering of a sheet is a pure function of the
  group rows and the global display options, so a rendered sheet is
  modelled as that input tuple.
-/

/-! ### Python string/path primitives

These are defined by structural recursion on the character list so that
concrete instances kernel-evaluate (`decide`). -/

/-- Model of Python's `str.split(sep)` for a single-character separator:
`"".split` is `[""]`, separators at the ends produce empty segments. -/
def splitOnChar (c : Char) : List Char → List (List Char)
  | [] => [[]]
  | x :: xs =>
    let r := splitOnChar c xs
    if x = c then [] :: r
    else
      match r with
      | [] => [[x]]
      | h :: t => (x :: h) :: t

/-- Last element of a list with a default (Python `l[-1]` with fallback). -/
def lastD {α : Type} (d : α) : List α → α
  | [] => d
  | [x] => x
  | _ :: x :: xs => lastD d (x :: xs)

/-- Model of Python's `sep.join(parts)`. -/
def joinSep (sep : String) : List String → String
  | [] => ""
  | [x] => x
  | x :: y :: xs => x ++ sep ++ joinSep sep (y :: xs)

/-- Index of the last occurrence of a character in a character list
(Python `str.rfind`), if any. -/
def lastIdxOf (t : Char) : List Char → Option Nat
  | [] => none
  | c :: cs =>
    match lastIdxOf t cs with
    | some i => some (i + 1)
    | none => if c = t then some 0 else none

/-- Index of the last occurrence of `'.'` in a character list, if any. -/
def lastDotIndex (cs : List Char) : Option Nat :=
  lastIdxOf '.' cs

/-- Root part of `os.path.splitext` for a bare filename (no directory
separators): split at the last `'.'`, unless every character before that
dot is itself a dot (so `".bashrc"` keeps its name whole). -/
def splitextRoot (s : String) : String :=
  let cs := s.toList
  match lastDotIndex cs with
  | none => s
  | some i => if (cs.take i).all (· = '.') then s else String.mk (cs.take i)

/-- Extension part of `os.path.splitext` for a bare filename. -/
def splitextExt (s : String) : String :=
  let cs := s.toList
  match lastDotIndex cs with
  | none => ""
  | some i => if (cs.take i).all (· = '.') then "" else String.mk (cs.drop i)

/-- Model of `os.path.basename` (POSIX): the part after the last `/`. -/
def basename (p : String) : String :=
  String.mk (lastD [] (splitOnChar '/' p.toList))

example : splitextRoot "a_b.tif" = "a_b" := by decide
example : splitextRoot ".bashrc" = ".bashrc" := by decide
example : splitextRoot "a.b.c" = "a.b" := by decide
example : splitextRoot "noext" = "noext" := by decide
example : basename "/x/y/z.tif" = "z.tif" := by decide

/-! ### The Grouper (`groups_tab.py`) -/

/-- The two pattern rules of the selector dropdown in the Groups tab
(`SELECTOR_UNDERSCORE` and `SELECTOR_LENGTH`). -/
inductive Selector where
  | underscore
  | length
deriving DecidableEq, Repr

/-- Grouping configuration: the toggle plus the two spinbox values of the
active criteria row.  `start`/`stop` are the raw spinbox values
(`underscore_start`/`underscore_end`, or `length_start`/`length_end`);
spinboxes hold non-negative integers.  (`stop` stands for the Python
variable `end`, which is a Lean keyword.) -/
structure GroupingConfig where
  enabled : Bool
  selector : Selector
  start : Nat
  stop : Nat
deriving DecidableEq, Repr

/-- Embedding of `GroupsTab._extract_group_key` applied to the filename
with its extension already removed (the body after
`name_without_ext = os.path.splitext(filename)[0]`). -/
def extract_group_key_noext (cfg : GroupingConfig) (name_without_ext : String) : Option String :=
  match cfg.selector with
  | .underscore =>
    let parts := (splitOnChar '_' name_without_ext.toList).map String.mk
    let start := cfg.start
    let stop := cfg.stop
    if start ≥ parts.length ∨ stop > parts.length ∨ start ≥ stop then
      none
    else
      some (joinSep "_" ((parts.drop start).take (stop - start)))
  | .length =>
    let start : Int := (cfg.start : Int) - 1
    let stop : Int := (cfg.stop : Int)
    if start < 0 ∨ stop > (name_without_ext.toList.length : Int) ∨ start ≥ stop then
      none
    else
      some (String.mk ((name_without_ext.toList.drop start.toNat).take (stop - start).toNat))

/-- Embedding of `GroupsTab._extract_group_key`: drop the extension, then
apply the configured criteria. -/
def extract_group_key (cfg : GroupingConfig) (filename : String) : Option String :=
  extract_group_key_noext cfg (splitextRoot filename)

/-- Python truthiness of the extracted key (`if key:`): a key is usable
iff it is neither `None` nor the empty string. -/
def keyTruthy : Option String → Bool
  | none => false
  | some s => !(s == "")

/-- The bucket a file path lands in inside `get_grouped_files`: the
extracted key when truthy, the fallback bucket `"_ungrouped"` otherwise. -/
def assignKey (cfg : GroupingConfig) (filepath : String) : String :=
  match extract_group_key cfg (basename filepath) with
  | some s => if s = "" then "_ungrouped" else s
  | none => "_ungrouped"

/-- One `groups[key].append(filepath)` step on an insertion-ordered
association list (`collections.defaultdict(list)` semantics). -/
def insertGrouped (gs : List (String × List String)) (k : String) (fp : String) :
    List (String × List String) :=
  match gs with
  | [] => [(k, [fp])]
  | (k₀, fps) :: rest =>
    if k₀ = k then (k₀, fps ++ [fp]) :: rest
    else (k₀, fps) :: insertGrouped rest k fp

/-- Embedding of `GroupsTab.get_grouped_files` over the stored
`_selected_files` list: disabled grouping collapses everything into the
single `"all"` group, otherwise each file is appended to the bucket of
its `assignKey`. -/
def get_grouped_files (cfg : GroupingConfig) (selected_files : List String) :
    List (String × List String) :=
  if !cfg.enabled then [("all", selected_files)]
  else
    selected_files.foldl (fun gs fp => insertGrouped gs (assignKey cfg fp) fp) []

example :
    get_grouped_files ⟨true, .underscore, 0, 1⟩ ["/d/g1_a.tif", "/d/g2_b.tif", "/d/g1_c.tif"] =
      [("g1", ["/d/g1_a.tif", "/d/g1_c.tif"]), ("g2", ["/d/g2_b.tif"])] := by decide

example :
    get_grouped_files ⟨true, .underscore, 1, 2⟩ ["/d/a__b.tif"] =
      [("_ungrouped", ["/d/a__b.tif"])] := by decide

/-! ### Grouper lemmas -/

/-- Concatenation of all bucket contents of a grouping result. -/
def bucketsJoin (gs : List (String × List String)) : List String :=
  (gs.map Prod.snd).flatten

lemma insertGrouped_keys (gs : List (String × List String)) (k fp : String) :
    (insertGrouped gs k fp).map Prod.fst =
      if k ∈ gs.map Prod.fst then gs.map Prod.fst else gs.map Prod.fst ++ [k] := by
  induction gs with
  | nil => simp [insertGrouped]
  | cons e rest ih =>
    obtain ⟨k₀, fps⟩ := e
    by_cases hk : k₀ = k
    · subst hk
      simp [insertGrouped]
    · simp only [insertGrouped, if_neg hk, List.map_cons, ih, List.mem_cons]
      have hne : ¬k = k₀ := fun h => hk h.symm
      by_cases hmem : k ∈ rest.map Prod.fst
      · simp [hmem, hne]
      · simp [hmem, hne]

lemma insertGrouped_join (gs : List (String × List String)) (k fp : String) :
    (bucketsJoin (insertGrouped gs k fp)).Perm (bucketsJoin gs ++ [fp]) := by
  induction gs with
  | nil => simp [insertGrouped, bucketsJoin]
  | cons e rest ih =>
    obtain ⟨k₀, fps⟩ := e
    by_cases hk : k₀ = k
    · subst hk
      have hins : insertGrouped ((k₀, fps) :: rest) k₀ fp = (k₀, fps ++ [fp]) :: rest := by
        simp [insertGrouped]
      rw [hins]
      simp only [bucketsJoin, List.map_cons, List.flatten_cons]
      have h₁ : ((fps ++ [fp]) ++ (rest.map Prod.snd).flatten) =
          fps ++ ([fp] ++ (rest.map Prod.snd).flatten) := by
        simp [List.append_assoc]
      have h₂ : (fps ++ ([fp] ++ (rest.map Prod.snd).flatten)).Perm
          (fps ++ ((rest.map Prod.snd).flatten ++ [fp])) :=
        List.Perm.append_left fps List.perm_append_comm
      rw [h₁]
      refine h₂.trans ?_
      rw [← List.append_assoc]
    · simp only [insertGrouped, if_neg hk, bucketsJoin, List.map_cons, List.flatten_cons]
      have h₂ : (fps ++ ((insertGrouped rest k fp).map Prod.snd).flatten).Perm
          (fps ++ ((rest.map Prod.snd).flatten ++ [fp])) :=
        List.Perm.append_left fps ih
      refine h₂.trans ?_
      rw [← List.append_assoc]

lemma insertGrouped_mem_cases (k fp : String) :
    ∀ (gs : List (String × List String)) (e : String × List String),
      e ∈ insertGrouped gs k fp → ∀ x ∈ e.2,
      (∃ e₁ ∈ gs, e₁.1 = e.1 ∧ x ∈ e₁.2) ∨ (x = fp ∧ e.1 = k) := by
  intro gs
  induction gs with
  | nil =>
    intro e he x hx
    simp only [insertGrouped, List.mem_singleton] at he
    subst he
    simp only [List.mem_singleton] at hx
    exact Or.inr ⟨hx, rfl⟩
  | cons e₀ rest ih =>
    obtain ⟨k₀, fps⟩ := e₀
    intro e he x hx
    by_cases hk : k₀ = k
    · subst hk
      have hins : insertGrouped ((k₀, fps) :: rest) k₀ fp = (k₀, fps ++ [fp]) :: rest := by
        simp [insertGrouped]
      rw [hins, List.mem_cons] at he
      rcases he with rfl | hmem
      · simp only [List.mem_append, List.mem_singleton] at hx
        rcases hx with hx | hx
        · exact Or.inl ⟨(k₀, fps), List.mem_cons_self _ _, rfl, hx⟩
        · exact Or.inr ⟨hx, rfl⟩
      · exact Or.inl ⟨e, List.mem_cons_of_mem _ hmem, rfl, hx⟩
    · have hins : insertGrouped ((k₀, fps) :: rest) k fp =
          (k₀, fps) :: insertGrouped rest k fp := by
        simp [insertGrouped, hk]
      rw [hins, List.mem_cons] at he
      rcases he with rfl | hmem
      · exact Or.inl ⟨(k₀, fps), List.mem_cons_self _ _, rfl, hx⟩
      · rcases ih e hmem x hx with ⟨e₁, he₁, h₁, hx₁⟩ | h
        · exact Or.inl ⟨e₁, List.mem_cons_of_mem _ he₁, h₁, hx₁⟩
        · exact Or.inr h

lemma foldl_insertGrouped_join (cfg : GroupingConfig) (files : List String) :
    ∀ gs, (bucketsJoin
        (files.foldl (fun gs fp => insertGrouped gs (assignKey cfg fp) fp) gs)).Perm
      (bucketsJoin gs ++ files) := by
  induction files with
  | nil => intro gs; simp
  | cons fp rest ih =>
    intro gs
    simp only [List.foldl_cons]
    have h₁ := ih (insertGrouped gs (assignKey cfg fp) fp)
    have h₂ : (bucketsJoin (insertGrouped gs (assignKey cfg fp) fp) ++ rest).Perm
        ((bucketsJoin gs ++ [fp]) ++ rest) :=
      List.Perm.append_right rest (insertGrouped_join gs _ fp)
    refine h₁.trans (h₂.trans ?_)
    simp [List.append_assoc]

lemma foldl_insertGrouped_keys_nodup (cfg : GroupingConfig) (files : List String) :
    ∀ gs, ((gs.map Prod.fst).Nodup) →
      (((files.foldl (fun gs fp => insertGrouped gs (assignKey cfg fp) fp) gs).map
        Prod.fst).Nodup) := by
  induction files with
  | nil => intro gs h; simpa using h
  | cons fp rest ih =>
    intro gs h
    apply ih
    rw [insertGrouped_keys]
    by_cases hmem : assignKey cfg fp ∈ gs.map Prod.fst
    · simpa [hmem] using h
    · simp only [if_neg hmem]
      exact List.Nodup.append h (List.nodup_singleton _) (by simpa using hmem)

lemma foldl_insertGrouped_assign (cfg : GroupingConfig) (files : List String) :
    ∀ gs, (∀ e ∈ gs, ∀ x ∈ e.2, assignKey cfg x = e.1) →
      ∀ e ∈ files.foldl (fun gs fp => insertGrouped gs (assignKey cfg fp) fp) gs,
        ∀ x ∈ e.2, assignKey cfg x = e.1 := by
  induction files with
  | nil => intro gs h; simpa using h
  | cons fp rest ih =>
    intro gs h
    apply ih
    intro e he x hx
    rcases insertGrouped_mem_cases (assignKey cfg fp) fp gs e he x hx with
      ⟨e₁, he₁, h₁, hx₁⟩ | ⟨hxfp, hek⟩
    · rw [← h₁]; exact h e₁ he₁ x hx₁
    · rw [hxfp, hek]

lemma get_grouped_files_join (cfg : GroupingConfig) (files : List String)
    (h : cfg.enabled = true) :
    (bucketsJoin (get_grouped_files cfg files)).Perm files := by
  unfold get_grouped_files
  rw [h]
  simpa [bucketsJoin] using foldl_insertGrouped_join cfg files []

lemma get_grouped_files_keys_nodup (cfg : GroupingConfig) (files : List String) :
    ((get_grouped_files cfg files).map Prod.fst).Nodup := by
  unfold get_grouped_files
  by_cases h : cfg.enabled
  · rw [h]
    simpa using foldl_insertGrouped_keys_nodup cfg files [] (by simp)
  · simp [h]

lemma get_grouped_files_assign (cfg : GroupingConfig) (files : List String)
    (h : cfg.enabled = true) :
    ∀ e ∈ get_grouped_files cfg files, ∀ x ∈ e.2, assignKey cfg x = e.1 := by
  unfold get_grouped_files
  rw [h]
  simpa using foldl_insertGrouped_assign cfg files [] (by simp)

lemma keys_nodup_entry_eq {α : Type} {l : List (String × α)}
    (h : (l.map Prod.fst).Nodup) {e₁ e₂ : String × α}
    (h₁ : e₁ ∈ l) (h₂ : e₂ ∈ l) (hk : e₁.1 = e₂.1) : e₁ = e₂ := by
  induction l with
  | nil => cases h₁
  | cons e rest ih =>
    simp only [List.map_cons, List.nodup_cons] at h
    rcases List.mem_cons.mp h₁ with rfl | h₁m
    · rcases List.mem_cons.mp h₂ with rfl | h₂m
      · rfl
      · exact absurd (hk ▸ List.mem_map_of_mem Prod.fst h₂m) h.1
    · rcases List.mem_cons.mp h₂ with rfl | h₂m
      · exact absurd (hk ▸ List.mem_map_of_mem Prod.fst h₁m) h.1
      · exact ih h.2 h₁m h₂m

lemma get_grouped_files_mem_bucket (cfg : GroupingConfig) (files : List String)
    (h : cfg.enabled = true) {fp : String} (hfp : fp ∈ files) :
    ∃ e ∈ get_grouped_files cfg files, e.1 = assignKey cfg fp ∧ fp ∈ e.2 := by
  have hj := get_grouped_files_join cfg files h
  have : fp ∈ bucketsJoin (get_grouped_files cfg files) := hj.mem_iff.mpr hfp
  simp only [bucketsJoin, List.mem_flatten, List.mem_map] at this
  obtain ⟨s, ⟨e, he, hs⟩, hfs⟩ := this
  subst hs
  exact ⟨e, he, (get_grouped_files_assign cfg files h e he fp hfs).symm, hfs⟩

/-- The key the underscore rule computes for a file path: the selected
`'_'`-separated segments of the extension-stripped basename, joined by
`'_'` (`'_'.join(parts[start:end])` in `_extract_group_key`). -/
def joined_segments (cfg : GroupingConfig) (fp : String) : String :=
  let parts := (splitOnChar '_' (splitextRoot (basename fp)).toList).map String.mk
  joinSep "_" ((parts.drop cfg.start).take (cfg.stop - cfg.start))

lemma extract_group_key_underscore (cfg : GroupingConfig) (fp : String)
    (h_sel : cfg.selector = .underscore) (h_lt : cfg.start < cfg.stop)
    (h_len : cfg.stop ≤ (splitOnChar '_' (splitextRoot (basename fp)).toList).length) :
    extract_group_key cfg (basename fp) = some (joined_segments cfg fp) := by
  have hguard : ¬(cfg.start ≥ ((splitOnChar '_' (splitextRoot (basename fp)).toList).map
        String.mk).length ∨
      cfg.stop > ((splitOnChar '_' (splitextRoot (basename fp)).toList).map String.mk).length ∨
      cfg.start ≥ cfg.stop) := by
    simp only [List.length_map]
    omega
  simp only [extract_group_key, extract_group_key_noext, joined_segments, h_sel,
    if_neg hguard]

/-- C2: for every file list with grouping enabled, `get_grouped_files`
partitions the input — the concatenation of all buckets (including
`"_ungrouped"`) is the input list up to permutation, bucket keys are
pairwise distinct, buckets with different keys are disjoint, and a
duplicate-free input yields duplicate-free buckets. -/
theorem C2_grouping_partitions (cfg : GroupingConfig) (files : List String)
    (h_enabled : cfg.enabled = true) :
    (bucketsJoin (get_grouped_files cfg files)).Perm files ∧
    ((get_grouped_files cfg files).map Prod.fst).Nodup ∧
    (∀ e₁ ∈ get_grouped_files cfg files, ∀ e₂ ∈ get_grouped_files cfg files,
      e₁.1 ≠ e₂.1 → ∀ fp ∈ e₁.2, fp ∉ e₂.2) ∧
    (files.Nodup → (bucketsJoin (get_grouped_files cfg files)).Nodup) := by
  refine ⟨get_grouped_files_join cfg files h_enabled,
    get_grouped_files_keys_nodup cfg files, ?_, ?_⟩
  · intro e₁ h₁ e₂ h₂ hne fp hfp₁ hfp₂
    have a₁ := get_grouped_files_assign cfg files h_enabled e₁ h₁ fp hfp₁
    have a₂ := get_grouped_files_assign cfg files h_enabled e₂ h₂ fp hfp₂
    exact hne (a₁ ▸ a₂ ▸ rfl)
  · intro hnd
    exact ((get_grouped_files_join cfg files h_enabled).nodup_iff).mpr hnd

/-- Witness for C2 at a concrete grouping run. -/
theorem C2_grouping_partitions_witness :
    (bucketsJoin (get_grouped_files ⟨true, .underscore, 0, 1⟩
        ["/d/g1_a.tif", "/d/g2_b.tif", "/d/g1_c.tif"])).Perm
      ["/d/g1_a.tif", "/d/g2_b.tif", "/d/g1_c.tif"] ∧
    ((get_grouped_files ⟨true, .underscore, 0, 1⟩
        ["/d/g1_a.tif", "/d/g2_b.tif", "/d/g1_c.tif"]).map Prod.fst).Nodup ∧
    (∀ e₁ ∈ get_grouped_files ⟨true, .underscore, 0, 1⟩
        ["/d/g1_a.tif", "/d/g2_b.tif", "/d/g1_c.tif"],
      ∀ e₂ ∈ get_grouped_files ⟨true, .underscore, 0, 1⟩
        ["/d/g1_a.tif", "/d/g2_b.tif", "/d/g1_c.tif"],
      e₁.1 ≠ e₂.1 → ∀ fp ∈ e₁.2, fp ∉ e₂.2) ∧
    (["/d/g1_a.tif", "/d/g2_b.tif", "/d/g1_c.tif"].Nodup →
      (bucketsJoin (get_grouped_files ⟨true, .underscore, 0, 1⟩
        ["/d/g1_a.tif", "/d/g2_b.tif", "/d/g1_c.tif"])).Nodup) :=
  C2_grouping_partitions ⟨true, .underscore, 0, 1⟩
    ["/d/g1_a.tif", "/d/g2_b.tif", "/d/g1_c.tif"] rfl

/-- C3 (counterexample): with the in-bounds underscore rule `[1,2)` and
the single file `"a__b.tif"` (segments `["a", "", "b"]`), the joined
segments form the empty string, and the file lands in the `"_ungrouped"`
fallback bucket — no bucket keyed by the joined segments exists, contrary
to the claim that every file goes to a group whose key equals the joined
segments. -/
theorem C3_counterexample :
    (1 : Nat) < 2 ∧
    2 ≤ (splitOnChar '_' (splitextRoot (basename "a__b.tif")).toList).length ∧
    joined_segments ⟨true, .underscore, 1, 2⟩ "a__b.tif" = "" ∧
    get_grouped_files ⟨true, .underscore, 1, 2⟩ ["a__b.tif"] =
      [("_ungrouped", ["a__b.tif"])] ∧
    ¬∃ e ∈ get_grouped_files ⟨true, .underscore, 1, 2⟩ ["a__b.tif"],
        e.1 = joined_segments ⟨true, .underscore, 1, 2⟩ "a__b.tif" ∧ "a__b.tif" ∈ e.2 := by
  decide

/-- C3 (amended): for a valid underscore range `[s,e)` with `s<e` not
exceeding the segment count, every file whose joined segments form a
NON-EMPTY string is assigned to exactly one group, whose key equals the
joined segments; files whose joined key is empty fall back to
`"_ungrouped"`. -/
theorem C3_underscore_assignment (cfg : GroupingConfig) (files : List String) (fp : String)
    (h_enabled : cfg.enabled = true) (h_sel : cfg.selector = .underscore)
    (h_lt : cfg.start < cfg.stop) (hfp : fp ∈ files)
    (h_len : cfg.stop ≤ (splitOnChar '_' (splitextRoot (basename fp)).toList).length)
    (h_ne : joined_segments cfg fp ≠ "") :
    ∃ e ∈ get_grouped_files cfg files, e.1 = joined_segments cfg fp ∧ fp ∈ e.2 ∧
      ∀ e₁ ∈ get_grouped_files cfg files, fp ∈ e₁.2 → e₁ = e := by
  have hassign : assignKey cfg fp = joined_segments cfg fp := by
    unfold assignKey
    rw [extract_group_key_underscore cfg fp h_sel h_lt h_len]
    simp [h_ne]
  obtain ⟨e, he, hk, hm⟩ := get_grouped_files_mem_bucket cfg files h_enabled hfp
  refine ⟨e, he, by rw [hk, hassign], hm, ?_⟩
  intro e₁ he₁ hm₁
  have h₁ := get_grouped_files_assign cfg files h_enabled e₁ he₁ fp hm₁
  have h₂ := get_grouped_files_assign cfg files h_enabled e he fp hm
  exact keys_nodup_entry_eq (get_grouped_files_keys_nodup cfg files) he₁ he (h₁.symm.trans h₂)

/-- Witness for the amended C3 at a concrete grouping run. -/
theorem C3_underscore_assignment_witness :
    joined_segments ⟨true, .underscore, 0, 1⟩ "p_1.tif" ≠ "" ∧
    ∃ e ∈ get_grouped_files ⟨true, .underscore, 0, 1⟩ ["p_1.tif", "q_2.tif"],
      e.1 = joined_segments ⟨true, .underscore, 0, 1⟩ "p_1.tif" ∧ "p_1.tif" ∈ e.2 ∧
      ∀ e₁ ∈ get_grouped_files ⟨true, .underscore, 0, 1⟩ ["p_1.tif", "q_2.tif"],
        "p_1.tif" ∈ e₁.2 → e₁ = e :=
  ⟨by decide, C3_underscore_assignment ⟨true, .underscore, 0, 1⟩ ["p_1.tif", "q_2.tif"]
    "p_1.tif" rfl rfl (by decide) (by decide) (by decide) (by decide)⟩

/-- C10: group-key extraction only sees the extension-stripped filename
(two filenames with the same `splitext` root get the same key), and a
file whose extracted key is the EMPTY string — which can only happen with
an in-bounds underscore range — is placed in the `"_ungrouped"` fallback
bucket. -/
theorem C10_empty_key_fallback :
    (∀ (cfg : GroupingConfig) (fn₁ fn₂ : String),
      splitextRoot fn₁ = splitextRoot fn₂ →
      extract_group_key cfg fn₁ = extract_group_key cfg fn₂) ∧
    (∀ (cfg : GroupingConfig) (files : List String) (fp : String),
      cfg.enabled = true → fp ∈ files →
      extract_group_key cfg (basename fp) = some "" →
      ∃ e ∈ get_grouped_files cfg files, e.1 = "_ungrouped" ∧ fp ∈ e.2) := by
  constructor
  · intro cfg fn₁ fn₂ h
    unfold extract_group_key
    rw [h]
  · intro cfg files fp h_enabled hfp hkey
    have hassign : assignKey cfg fp = "_ungrouped" := by
      unfold assignKey
      rw [hkey]
      simp
    obtain ⟨e, he, hk, hm⟩ := get_grouped_files_mem_bucket cfg files h_enabled hfp
    exact ⟨e, he, by rw [hk, hassign], hm⟩

/-- Witness for C10 at a concrete empty-key file. -/
theorem C10_empty_key_fallback_witness :
    extract_group_key ⟨true, .underscore, 1, 2⟩ (basename "x__y.png") = some "" ∧
    ∃ e ∈ get_grouped_files ⟨true, .underscore, 1, 2⟩ ["x__y.png"],
      e.1 = "_ungrouped" ∧ "x__y.png" ∈ e.2 :=
  ⟨by decide, C10_empty_key_fallback.2 ⟨true, .underscore, 1, 2⟩ ["x__y.png"] "x__y.png"
    rfl (by decide) (by decide)⟩

/-! ### Generic stable insertion sort (models Python `sorted` /
`DataFrame.sort_values`, which are stable) -/

/-- Insert `x` after every element `y` of `l` with `le y x` (so equal
elements keep their original relative order). -/
def insertBy {α : Type} (le : α → α → Bool) (x : α) : List α → List α
  | [] => [x]
  | y :: ys => if le y x then y :: insertBy le x ys else x :: y :: ys

/-- Stable insertion sort with comparator `le`. -/
def sortBy {α : Type} (le : α → α → Bool) (l : List α) : List α :=
  l.foldl (fun acc x => insertBy le x acc) []

lemma insertBy_perm {α : Type} (le : α → α → Bool) (x : α) (l : List α) :
    (insertBy le x l).Perm (x :: l) := by
  induction l with
  | nil => exact List.Perm.refl _
  | cons y ys ih =>
    by_cases h : le y x
    · simp only [insertBy, if_pos h]
      exact (ih.cons y).trans (List.Perm.swap x y ys)
    · simp only [insertBy, if_neg h]
      exact List.Perm.refl _

lemma sortBy_perm {α : Type} (le : α → α → Bool) (l : List α) :
    (sortBy le l).Perm l := by
  suffices h : ∀ acc, ((l.foldl (fun acc x => insertBy le x acc) acc)).Perm (acc ++ l) by
    simpa using h []
  induction l with
  | nil => intro acc; simp
  | cons x xs ih =>
    intro acc
    simp only [List.foldl_cons]
    refine (ih (insertBy le x acc)).trans ?_
    have h₁ : (insertBy le x acc ++ xs).Perm ((x :: acc) ++ xs) :=
      List.Perm.append_right xs (insertBy_perm le x acc)
    refine h₁.trans ?_
    simpa using List.perm_middle.symm

lemma insertBy_pairwise {α : Type} (le : α → α → Bool)
    (htot : ∀ a b, le a b = true ∨ le b a = true)
    (htrans : ∀ a b c, le a b = true → le b c = true → le a c = true)
    (x : α) (l : List α) (h : List.Pairwise (fun a b => le a b = true) l) :
    List.Pairwise (fun a b => le a b = true) (insertBy le x l) := by
  induction l with
  | nil => simp [insertBy]
  | cons y ys ih =>
    rcases List.pairwise_cons.mp h with ⟨hy, hys⟩
    by_cases hle : le y x
    · simp only [insertBy, if_pos hle]
      refine List.pairwise_cons.mpr ⟨?_, ih hys⟩
      intro z hz
      have := (insertBy_perm le x ys).mem_iff.mp hz
      rcases List.mem_cons.mp this with rfl | hmem
      · exact hle
      · exact hy z hmem
    · simp only [insertBy, if_neg hle]
      have hxy : le x y = true := by
        rcases htot x y with h' | h'
        · exact h'
        · exact absurd h' hle
      refine List.pairwise_cons.mpr ⟨?_, h⟩
      intro z hz
      rcases List.mem_cons.mp hz with rfl | hmem
      · exact hxy
      · exact htrans x y z hxy (hy z hmem)

lemma sortBy_pairwise {α : Type} (le : α → α → Bool)
    (htot : ∀ a b, le a b = true ∨ le b a = true)
    (htrans : ∀ a b c, le a b = true → le b c = true → le a c = true)
    (l : List α) :
    List.Pairwise (fun a b => le a b = true) (sortBy le l) := by
  suffices h : ∀ acc, List.Pairwise (fun a b => le a b = true) acc →
      List.Pairwise (fun a b => le a b = true)
        (l.foldl (fun acc x => insertBy le x acc) acc) by
    exact h [] (List.Pairwise.nil)
  induction l with
  | nil => intro acc hacc; simpa using hacc
  | cons x xs ih =>
    intro acc hacc
    simp only [List.foldl_cons]
    exact ih _ (insertBy_pairwise le htot htrans x acc hacc)

/-! ### The Tabular Store row and the Start New table builder
(`pickle_datafile_tab.py`) -/

/-- A row of the tabular store.  `_on_start_new` only fills the first
four columns (`Filename`, `Directory`, `Group`, `Group_ID`); `threshold`
and `fraction` model the `Threshold` and `Fraction` columns that a later
processing stage adds (a missing / NaN fraction is `none`). -/
structure FileRow where
  filename : String
  directory : String
  group : String
  group_id : Nat
  threshold : ℚ
  fraction : Option ℚ
deriving DecidableEq, Repr

/-- Strip trailing copies of a character (Python `str.rstrip` for a
single character). -/
def dropTrailing (t : Char) (cs : List Char) : List Char :=
  (cs.reverse.dropWhile (· = t)).reverse

/-- Model of `os.path.dirname` (POSIX): everything before the final
`'/'`, with trailing slashes stripped unless the result is all slashes. -/
def dirname (p : String) : String :=
  let cs := p.toList
  match lastIdxOf '/' cs with
  | none => ""
  | some i =>
    let head := cs.take (i + 1)
    if head.all (· = '/') then String.mk head
    else String.mk (dropTrailing '/' head)

example : dirname "/x/y/z.tif" = "/x/y" := by decide
example : dirname "z.tif" = "" := by decide
example : dirname "/z.tif" = "/" := by decide

/-- A freshly created row of `_on_start_new` (threshold / fraction
columns do not exist yet; their model fields carry defaults). -/
def mkBaseRow (baseDir filename group : String) (gid : Nat) : FileRow :=
  ⟨filename, baseDir, group, gid, 0, none⟩

/-- Code-point lexicographic comparison of character lists (Python
string `<`), by structural recursion so it kernel-evaluates. -/
def charListLt : List Char → List Char → Bool
  | [], [] => false
  | [], _ :: _ => true
  | _ :: _, [] => false
  | a :: as, b :: bs =>
    if a.toNat < b.toNat then true
    else if b.toNat < a.toNat then false
    else charListLt as bs

/-- Python string `<` (code-point lexicographic). -/
def strLt (a b : String) : Bool :=
  charListLt a.toList b.toList

/-- Comparator on dict items sorted by key (`sorted(grouped_files.items())`;
keys are unique, so only the key matters). -/
def pairKeyLe (p q : String × List String) : Bool :=
  !(strLt q.1 p.1)

/-- The grouped-files loop of `_on_start_new`: `"_ungrouped"` buckets
produce rows with empty `Group` and `Group_ID` 0; every other bucket gets
the next free group number via `group_number_map`. -/
def start_new_rows (baseDir : String) :
    List (String × List String) → List (String × Nat) → Nat → List FileRow
  | [], _, _ => []
  | (gname, files) :: rest, gmap, cur =>
    if gname = "_ungrouped" then
      files.map (fun fp => mkBaseRow baseDir (basename fp) "" 0) ++
        start_new_rows baseDir rest gmap cur
    else
      match gmap.lookup gname with
      | some n =>
        files.map (fun fp => mkBaseRow baseDir (basename fp) gname n) ++
          start_new_rows baseDir rest gmap cur
      | none =>
        files.map (fun fp => mkBaseRow baseDir (basename fp) gname (cur + 1)) ++
          start_new_rows baseDir rest ((gname, cur + 1) :: gmap) (cur + 1)

/-- Embedding of the table construction of `_on_start_new`: with grouping
enabled and non-empty grouped files, iterate the buckets sorted by key;
otherwise one ungrouped row per selected file.  The base directory is the
directory of the first selected file. -/
def start_new_table (selected_files : List String)
    (grouped_files : List (String × List String)) (grouping_enabled : Bool) : List FileRow :=
  let baseDir := dirname (selected_files.headD "")
  if grouping_enabled && !grouped_files.isEmpty then
    start_new_rows baseDir (sortBy pairKeyLe grouped_files) [] 0
  else
    selected_files.map (fun fp => mkBaseRow baseDir (basename fp) "" 0)

/-- Comparator of `_apply_group_sorting`: `sort_values` by
`(Group_ID, Group, Filename)` ascending. -/
def rowSortLe (a b : FileRow) : Bool :=
  if a.group_id < b.group_id then true
  else if b.group_id < a.group_id then false
  else if strLt a.group b.group then true
  else if strLt b.group a.group then false
  else !(strLt b.filename a.filename)

/-- Embedding of `_apply_group_sorting` on a table that has all of the
`Group_ID`, `Group` and `Filename` columns. -/
def apply_group_sorting (rows : List FileRow) : List FileRow :=
  sortBy rowSortLe rows

/-- The table produced by the whole `_on_start_new` flow, including the
optional `sort_by_groups_checkbox` re-sort. -/
def start_new_full (selected_files : List String)
    (grouped_files : List (String × List String)) (grouping_enabled sort_flag : Bool) :
    List FileRow :=
  let t := start_new_table selected_files grouped_files grouping_enabled
  if sort_flag then apply_group_sorting t else t

/-! ### Start New lemmas and C9 -/

lemma mem_map_baseRow {baseDir g : String} {n : Nat} {files : List String} {r : FileRow}
    (hr : r ∈ files.map (fun fp => mkBaseRow baseDir (basename fp) g n)) :
    r.group = g ∧ r.group_id = n := by
  obtain ⟨fp, _, rfl⟩ := List.mem_map.mp hr
  exact ⟨rfl, rfl⟩

lemma start_new_rows_spec (baseDir : String) :
    ∀ (pairs : List (String × List String)) (gmap : List (String × Nat)) (cur : Nat),
      ((pairs.map Prod.fst).Nodup) →
      (∀ k ∈ pairs.map Prod.fst, gmap.lookup k = none) →
      ("" ∉ pairs.map Prod.fst) →
      (∀ r ∈ start_new_rows baseDir pairs gmap cur,
        (r.group = "" ∧ r.group_id = 0) ∨
          (r.group ≠ "" ∧ cur < r.group_id ∧ r.group ∈ pairs.map Prod.fst)) ∧
      (∀ r₁ ∈ start_new_rows baseDir pairs gmap cur,
        ∀ r₂ ∈ start_new_rows baseDir pairs gmap cur,
          r₁.group = r₂.group → r₁.group_id = r₂.group_id) ∧
      (∀ r₁ ∈ start_new_rows baseDir pairs gmap cur,
        ∀ r₂ ∈ start_new_rows baseDir pairs gmap cur,
          r₁.group ≠ r₂.group → r₁.group ≠ "" → r₂.group ≠ "" →
            r₁.group_id ≠ r₂.group_id) := by
  intro pairs
  induction pairs with
  | nil =>
    intro gmap cur _ _ _
    refine ⟨?_, ?_, ?_⟩ <;> simp [start_new_rows]
  | cons p rest ih =>
    obtain ⟨gname, files⟩ := p
    intro gmap cur hnodup hfresh hne
    have hkeys : ((gname, files) :: rest).map Prod.fst = gname :: rest.map Prod.fst := rfl
    rw [hkeys] at hnodup hfresh hne
    have hnodup' : (rest.map Prod.fst).Nodup := (List.nodup_cons.mp hnodup).2
    have hgnotin : gname ∉ rest.map Prod.fst := (List.nodup_cons.mp hnodup).1
    have hne' : "" ∉ rest.map Prod.fst := fun h => hne (List.mem_cons_of_mem _ h)
    by_cases hg : gname = "_ungrouped"
    · subst hg
      have hrows : start_new_rows baseDir (("_ungrouped", files) :: rest) gmap cur =
          files.map (fun fp => mkBaseRow baseDir (basename fp) "" 0) ++
            start_new_rows baseDir rest gmap cur := by
        simp [start_new_rows]
      have hfresh' : ∀ k ∈ rest.map Prod.fst, gmap.lookup k = none :=
        fun k hk => hfresh k (List.mem_cons_of_mem _ hk)
      obtain ⟨A, B, C⟩ := ih gmap cur hnodup' hfresh' hne'
      rw [hrows]
      refine ⟨?_, ?_, ?_⟩
      · intro r hr
        rcases List.mem_append.mp hr with hh | ht
        · exact Or.inl (mem_map_baseRow hh)
        · rcases A r ht with h | ⟨h₁, h₂, h₃⟩
          · exact Or.inl h
          · exact Or.inr ⟨h₁, h₂, List.mem_cons_of_mem _ h₃⟩
      · intro r₁ h₁ r₂ h₂ heq
        rcases List.mem_append.mp h₁ with hh₁ | ht₁ <;>
          rcases List.mem_append.mp h₂ with hh₂ | ht₂
        · rw [(mem_map_baseRow hh₁).2, (mem_map_baseRow hh₂).2]
        · obtain ⟨hg₁, hid₁⟩ := mem_map_baseRow hh₁
          rcases A r₂ ht₂ with ⟨_, hid₂⟩ | ⟨hne₂, _, _⟩
          · rw [hid₁, hid₂]
          · exact absurd (heq.symm.trans hg₁) hne₂
        · obtain ⟨hg₂, hid₂⟩ := mem_map_baseRow hh₂
          rcases A r₁ ht₁ with ⟨_, hid₁⟩ | ⟨hne₁, _, _⟩
          · rw [hid₁, hid₂]
          · exact absurd (heq.trans hg₂) hne₁
        · exact B r₁ ht₁ r₂ ht₂ heq
      · intro r₁ h₁ r₂ h₂ hne₁₂ hne₁ hne₂
        rcases List.mem_append.mp h₁ with hh₁ | ht₁
        · exact absurd (mem_map_baseRow hh₁).1 hne₁
        · rcases List.mem_append.mp h₂ with hh₂ | ht₂
          · exact absurd (mem_map_baseRow hh₂).1 hne₂
          · exact C r₁ ht₁ r₂ ht₂ hne₁₂ hne₁ hne₂
    · have hlook : gmap.lookup gname = none := hfresh gname (List.mem_cons_self _ _)
      have hrows : start_new_rows baseDir ((gname, files) :: rest) gmap cur =
          files.map (fun fp => mkBaseRow baseDir (basename fp) gname (cur + 1)) ++
            start_new_rows baseDir rest ((gname, cur + 1) :: gmap) (cur + 1) := by
        simp [start_new_rows, hg, hlook]
      have hgname_ne : gname ≠ "" := fun h => hne (h ▸ List.mem_cons_self _ _)
      have hfresh'' : ∀ k ∈ rest.map Prod.fst,
          ((gname, cur + 1) :: gmap).lookup k = none := by
        intro k hk
        have hkne : (k == gname) = false :=
          beq_eq_false_iff_ne.mpr (fun h => hgnotin (h ▸ hk))
        simp only [List.lookup, hkne]
        exact hfresh k (List.mem_cons_of_mem _ hk)
      obtain ⟨A, B, C⟩ := ih ((gname, cur + 1) :: gmap) (cur + 1) hnodup' hfresh'' hne'
      rw [hrows]
      refine ⟨?_, ?_, ?_⟩
      · intro r hr
        rcases List.mem_append.mp hr with hh | ht
        · obtain ⟨hgr, hid⟩ := mem_map_baseRow hh
          exact Or.inr ⟨hgr ▸ hgname_ne, by omega, hgr ▸ List.mem_cons_self _ _⟩
        · rcases A r ht with h | ⟨h₁, h₂, h₃⟩
          · exact Or.inl h
          · exact Or.inr ⟨h₁, by omega, List.mem_cons_of_mem _ h₃⟩
      · intro r₁ h₁ r₂ h₂ heq
        rcases List.mem_append.mp h₁ with hh₁ | ht₁ <;>
          rcases List.mem_append.mp h₂ with hh₂ | ht₂
        · rw [(mem_map_baseRow hh₁).2, (mem_map_baseRow hh₂).2]
        · obtain ⟨hg₁, hid₁⟩ := mem_map_baseRow hh₁
          rcases A r₂ ht₂ with ⟨hg₂, _⟩ | ⟨_, _, hmem₂⟩
          · exact absurd (hg₁ ▸ heq ▸ hg₂ : gname = "") hgname_ne
          · exact absurd (hg₁ ▸ heq ▸ hmem₂ : gname ∈ rest.map Prod.fst) hgnotin
        · obtain ⟨hg₂, hid₂⟩ := mem_map_baseRow hh₂
          rcases A r₁ ht₁ with ⟨hg₁, _⟩ | ⟨_, _, hmem₁⟩
          · exact absurd (hg₂ ▸ heq.symm ▸ hg₁ : gname = "") hgname_ne
          · exact absurd (hg₂ ▸ heq.symm ▸ hmem₁ : gname ∈ rest.map Prod.fst) hgnotin
        · exact B r₁ ht₁ r₂ ht₂ heq
      · intro r₁ h₁ r₂ h₂ hne₁₂ hne₁ hne₂
        rcases List.mem_append.mp h₁ with hh₁ | ht₁ <;>
          rcases List.mem_append.mp h₂ with hh₂ | ht₂
        · exact absurd ((mem_map_baseRow hh₁).1.trans (mem_map_baseRow hh₂).1.symm) hne₁₂
        · obtain ⟨hg₁, hid₁⟩ := mem_map_baseRow hh₁
          rcases A r₂ ht₂ with ⟨hg₂, _⟩ | ⟨_, hlt₂, _⟩
          · exact absurd hg₂ hne₂
          · omega
        · obtain ⟨hg₂, hid₂⟩ := mem_map_baseRow hh₂
          rcases A r₁ ht₁ with ⟨hg₁, _⟩ | ⟨_, hlt₁, _⟩
          · exact absurd hg₁ hne₁
          · omega
        · exact C r₁ ht₁ r₂ ht₂ hne₁₂ hne₁ hne₂

lemma assignKey_ne_empty (cfg : GroupingConfig) (fp : String) : assignKey cfg fp ≠ "" := by
  unfold assignKey
  cases h : extract_group_key cfg (basename fp) with
  | none => simp
  | some s =>
    by_cases hs : s = "" <;> simp [hs]

lemma get_grouped_files_keys_ne_empty (cfg : GroupingConfig) (files : List String) :
    "" ∉ (get_grouped_files cfg files).map Prod.fst := by
  unfold get_grouped_files
  by_cases h : cfg.enabled
  · rw [h]
    suffices hfold : ∀ gs : List (String × List String), "" ∉ gs.map Prod.fst →
        "" ∉ ((files.foldl (fun gs fp => insertGrouped gs (assignKey cfg fp) fp) gs).map
          Prod.fst) by
      simpa using hfold [] (by simp)
    induction files with
    | nil => intro gs hgs; simpa using hgs
    | cons fp rest ihf =>
      intro gs hgs
      simp only [List.foldl_cons]
      apply ihf
      rw [insertGrouped_keys]
      by_cases hmem : assignKey cfg fp ∈ gs.map Prod.fst
      · simpa [hmem] using hgs
      · simp only [if_neg hmem, List.mem_append, List.mem_singleton]
        rintro (hc | hc)
        · exact hgs hc
        · exact assignKey_ne_empty cfg fp hc.symm
  · simp [h]

/-- C9: in every table built by the Start New operation from the
Grouper's output, `Group_ID` is a function of the `Group` name — equal
names share one id, distinct non-empty names get distinct ids, an empty
name (ungrouped) always carries id 0, and a non-empty name always
carries a positive id. -/
theorem C9_group_id_invariants (cfg : GroupingConfig) (files selected : List String)
    (grouping_enabled sort_flag : Bool) :
    ∀ r₁ ∈ start_new_full selected (get_grouped_files cfg files) grouping_enabled sort_flag,
      (r₁.group = "" → r₁.group_id = 0) ∧ (r₁.group ≠ "" → 0 < r₁.group_id) ∧
      ∀ r₂ ∈ start_new_full selected (get_grouped_files cfg files) grouping_enabled sort_flag,
        (r₁.group = r₂.group → r₁.group_id = r₂.group_id) ∧
        (r₁.group ≠ r₂.group → r₁.group ≠ "" → r₂.group ≠ "" →
          r₁.group_id ≠ r₂.group_id) := by
  have hperm : (start_new_full selected (get_grouped_files cfg files) grouping_enabled
      sort_flag).Perm (start_new_table selected (get_grouped_files cfg files)
        grouping_enabled) := by
    unfold start_new_full
    by_cases hs : sort_flag
    · simp only [hs, if_pos]
      exact sortBy_perm _ _
    · simp [hs]
  have hbase : ∀ r₁ ∈ start_new_table selected (get_grouped_files cfg files) grouping_enabled,
      (r₁.group = "" → r₁.group_id = 0) ∧ (r₁.group ≠ "" → 0 < r₁.group_id) ∧
      ∀ r₂ ∈ start_new_table selected (get_grouped_files cfg files) grouping_enabled,
        (r₁.group = r₂.group → r₁.group_id = r₂.group_id) ∧
        (r₁.group ≠ r₂.group → r₁.group ≠ "" → r₂.group ≠ "" →
          r₁.group_id ≠ r₂.group_id) := by
    unfold start_new_table
    by_cases he : (grouping_enabled && !(get_grouped_files cfg files).isEmpty) = true
    · rw [if_pos he]
      have hperm_keys : (((sortBy pairKeyLe (get_grouped_files cfg files)).map
          Prod.fst)).Perm ((get_grouped_files cfg files).map Prod.fst) :=
        (sortBy_perm pairKeyLe (get_grouped_files cfg files)).map Prod.fst
      have hnodup : ((sortBy pairKeyLe (get_grouped_files cfg files)).map Prod.fst).Nodup :=
        hperm_keys.nodup_iff.mpr (get_grouped_files_keys_nodup cfg files)
      have hfresh : ∀ k ∈ (sortBy pairKeyLe (get_grouped_files cfg files)).map Prod.fst,
          (([] : List (String × Nat)).lookup k) = none := by
        intro k _
        rfl
      have hne : "" ∉ (sortBy pairKeyLe (get_grouped_files cfg files)).map Prod.fst :=
        fun h => get_grouped_files_keys_ne_empty cfg files (hperm_keys.mem_iff.mp h)
      obtain ⟨A, B, C⟩ := start_new_rows_spec (dirname (selected.headD ""))
        (sortBy pairKeyLe (get_grouped_files cfg files)) [] 0 hnodup hfresh hne
      intro r₁ h₁
      refine ⟨?_, ?_, ?_⟩
      · intro hg
        rcases A r₁ h₁ with ⟨_, h0⟩ | ⟨hne₁, _, _⟩
        · exact h0
        · exact absurd hg hne₁
      · intro hg
        rcases A r₁ h₁ with ⟨hg₁, _⟩ | ⟨_, hlt, _⟩
        · exact absurd hg₁ hg
        · omega
      · intro r₂ h₂
        exact ⟨B r₁ h₁ r₂ h₂, C r₁ h₁ r₂ h₂⟩
    · rw [if_neg he]
      intro r₁ h₁
      obtain ⟨hg₁, hid₁⟩ := mem_map_baseRow h₁
      refine ⟨fun _ => hid₁, fun hc => absurd hg₁ hc, ?_⟩
      intro r₂ h₂
      obtain ⟨hg₂, hid₂⟩ := mem_map_baseRow h₂
      exact ⟨fun _ => hid₁.trans hid₂.symm, fun _ hc => absurd hg₁ hc⟩
  intro r₁ h₁
  have h₁b := hperm.mem_iff.mp h₁
  obtain ⟨p₁, p₂, p₃⟩ := hbase r₁ h₁b
  refine ⟨p₁, p₂, ?_⟩
  intro r₂ h₂
  exact p₃ r₂ (hperm.mem_iff.mp h₂)

/-! ### Sheet renderer: fractions bar chart (`_render_sheet_content`) -/

lemma n_cols_spec_exists (n : Nat) : ∃ k : Nat, 12 * n ≤ 10 * (k * k) := by
  refine ⟨n + 1, ?_⟩
  nlinarith

/-- Heatmap grid columns: `int(np.ceil(np.sqrt(num_files * 1.2)))`, the
least `k` with `k*k ≥ 1.2*n` (exact-real semantics of the float
computation). -/
def n_cols (n : Nat) : Nat :=
  Nat.find (n_cols_spec_exists n)

/-- Heatmap grid rows: `int(np.ceil(num_files / n_cols))`. -/
def n_rows (n : Nat) : Nat :=
  (n + n_cols n - 1) / n_cols n

example : n_cols 4 = 3 := by decide
example : n_rows 4 = 2 := by decide

lemma n_cols_pos (n : Nat) (h : 1 ≤ n) : 0 < n_cols n := by
  rcases Nat.eq_zero_or_pos (n_cols n) with h0 | h'
  · exfalso
    have hs := Nat.find_spec (n_cols_spec_exists n)
    unfold n_cols at h0
    rw [h0] at hs
    omega
  · exact h'

/-- The heatmap grid always has room for every file of the group, so the
`if idx >= n_rows * n_cols: break` guard in the render loop never fires. -/
lemma grid_capacity (n : Nat) (h : 1 ≤ n) : n ≤ n_rows n * n_cols n := by
  have hcpos : 0 < n_cols n := n_cols_pos n h
  unfold n_rows
  by_contra hcon
  push_neg at hcon
  have hle : (n + n_cols n - 1) / n_cols n * n_cols n ≤ n - 1 :=
    Nat.le_sub_one_of_lt hcon
  have h1 : (n + n_cols n - 1) / n_cols n * n_cols n + n_cols n ≤ (n - 1) + n_cols n :=
    Nat.add_le_add_right hle _
  have he : (n - 1) + n_cols n = n + n_cols n - 1 := by omega
  rw [he] at h1
  have h3 : ((n + n_cols n - 1) / n_cols n + 1) * n_cols n ≤ n + n_cols n - 1 := by
    rw [Nat.succ_mul]
    exact h1
  have h4 : (n + n_cols n - 1) / n_cols n + 1 ≤ (n + n_cols n - 1) / n_cols n :=
    (Nat.le_div_iff_mul_le hcpos).mpr h3
  exact Nat.not_succ_le_self _ h4

/-- The per-bar fraction values collected by the render loop
(`row.get("Fraction", np.nan)` for each row with index below the grid
capacity; `none` models NaN / a missing column). -/
def fraction_values (rows : List FileRow) : List (Option ℚ) :=
  (rows.take (n_rows rows.length * n_cols rows.length)).map (fun r => r.fraction)

/-- `valid_fractions = [f for f in fraction_values if not np.isnan(f)]`. -/
def valid_fractions (fvals : List (Option ℚ)) : List ℚ :=
  fvals.filterMap id

/-- Python `max` of a list of (non-NaN) floats. -/
def maxQ : List ℚ → Option ℚ
  | [] => none
  | x :: xs => some (xs.foldl max x)

/-- The y-limits set on `fractions_ax`: `(0, max_fraction * 1.15)` when
any valid fraction exists, `(0, 1)` otherwise. -/
def fractions_ylim (fvals : List (Option ℚ)) : ℚ × ℚ :=
  match maxQ (valid_fractions fvals) with
  | some m => (0, m * (115 / 100))
  | none => (0, 1)

/-- Number of bars that receive a text value label: one per bar whose
fraction is not NaN. -/
def labeled_bar_count (fvals : List (Option ℚ)) : Nat :=
  (fvals.filter (fun v => v.isSome)).length

lemma foldl_max_mem (x : ℚ) (xs : List ℚ) : xs.foldl max x ∈ x :: xs := by
  induction xs generalizing x with
  | nil => simp
  | cons y ys ih =>
    simp only [List.foldl_cons]
    rcases List.mem_cons.mp (ih (max x y)) with heq | hmem
    · rcases max_choice x y with hm | hm
      · exact List.mem_cons.mpr (Or.inl (heq.trans hm))
      · exact List.mem_cons.mpr (Or.inr (List.mem_cons.mpr (Or.inl (heq.trans hm))))
    · exact List.mem_cons.mpr (Or.inr (List.mem_cons.mpr (Or.inr hmem)))

lemma le_foldl_max (x : ℚ) (xs : List ℚ) :
    x ≤ xs.foldl max x ∧ ∀ y ∈ xs, y ≤ xs.foldl max x := by
  induction xs generalizing x with
  | nil => simp
  | cons y ys ih =>
    obtain ⟨h₁, h₂⟩ := ih (max x y)
    refine ⟨le_trans (le_max_left x y) h₁, ?_⟩
    intro z hz
    rcases List.mem_cons.mp hz with rfl | hmem
    · exact le_trans (le_max_right x z) h₁
    · exact h₂ z hmem

lemma filter_isSome_length_eq_filterMap {fvals : List (Option ℚ)} :
    (fvals.filter (fun v => v.isSome)).length = (fvals.filterMap id).length := by
  induction fvals with
  | nil => rfl
  | cons v rest ih =>
    cases v with
    | none => simpa using ih
    | some q => simpa using ih

/-- C6: every row of the group contributes one bar (the grid-capacity
break never truncates); the bar chart y-limit is `(0, m * 1.15)` where
`m` is the maximum valid Fraction, `(0, 1)` when no valid Fraction
exists; and exactly the bars with a valid Fraction receive value labels. -/
theorem C6_fractions_chart (rows : List FileRow) :
    fraction_values rows = rows.map (fun r => r.fraction) ∧
    (valid_fractions (fraction_values rows) = [] →
      fractions_ylim (fraction_values rows) = (0, 1)) ∧
    (∀ m : ℚ, m ∈ valid_fractions (fraction_values rows) →
      (∀ x ∈ valid_fractions (fraction_values rows), x ≤ m) →
      fractions_ylim (fraction_values rows) = (0, m * (115 / 100))) ∧
    labeled_bar_count (fraction_values rows) =
      (valid_fractions (fraction_values rows)).length := by
  have htake : fraction_values rows = rows.map (fun r => r.fraction) := by
    unfold fraction_values
    rcases Nat.eq_zero_or_pos rows.length with h0 | hpos
    · rw [List.eq_nil_of_length_eq_zero h0]
      rfl
    · rw [List.take_of_length_le (grid_capacity rows.length hpos)]
  refine ⟨htake, ?_, ?_, filter_isSome_length_eq_filterMap⟩
  · intro hnil
    unfold fractions_ylim
    rw [hnil]
    rfl
  · intro m hmem hub
    unfold fractions_ylim
    cases hv : valid_fractions (fraction_values rows) with
    | nil => rw [hv] at hmem; cases hmem
    | cons x xs =>
      rw [hv] at hmem hub
      simp only [maxQ]
      have hfm := foldl_max_mem x xs
      have hle₁ : xs.foldl max x ≤ m := hub _ hfm
      have hle₂ : m ≤ xs.foldl max x := by
        rcases List.mem_cons.mp hmem with rfl | hmem'
        · exact (le_foldl_max m xs).1
        · exact (le_foldl_max x xs).2 m hmem'
      rw [le_antisymm hle₁ hle₂]

/-- Witness for C6 at the spec's instance: a group whose rows carry the
Fraction values `[0.2, 0.5, 0.9, NaN]` gets y-limits `(0, 0.9 * 1.15)`
and exactly 3 labeled bars. -/
theorem C6_fractions_chart_witness :
    fractions_ylim (fraction_values
      [⟨"f1.tif", "/d", "g", 1, 0, some (2 / 10)⟩,
       ⟨"f2.tif", "/d", "g", 1, 0, some (5 / 10)⟩,
       ⟨"f3.tif", "/d", "g", 1, 0, some (9 / 10)⟩,
       ⟨"f4.tif", "/d", "g", 1, 0, none⟩]) = (0, (9 / 10) * (115 / 100)) ∧
    labeled_bar_count (fraction_values
      [⟨"f1.tif", "/d", "g", 1, 0, some (2 / 10)⟩,
       ⟨"f2.tif", "/d", "g", 1, 0, some (5 / 10)⟩,
       ⟨"f3.tif", "/d", "g", 1, 0, some (9 / 10)⟩,
       ⟨"f4.tif", "/d", "g", 1, 0, none⟩]) = 3 := by
  have h := C6_fractions_chart
    [⟨"f1.tif", "/d", "g", 1, 0, some (2 / 10)⟩,
     ⟨"f2.tif", "/d", "g", 1, 0, some (5 / 10)⟩,
     ⟨"f3.tif", "/d", "g", 1, 0, some (9 / 10)⟩,
     ⟨"f4.tif", "/d", "g", 1, 0, none⟩]
  have hfv : valid_fractions (fraction_values
      [⟨"f1.tif", "/d", "g", 1, 0, some (2 / 10)⟩,
       ⟨"f2.tif", "/d", "g", 1, 0, some (5 / 10)⟩,
       ⟨"f3.tif", "/d", "g", 1, 0, some (9 / 10)⟩,
       ⟨"f4.tif", "/d", "g", 1, 0, none⟩]) = [2 / 10, 5 / 10, 9 / 10] := by
    rw [h.1]
    rfl
  refine ⟨h.2.2.1 (9 / 10) ?_ ?_, ?_⟩
  · rw [hfv]
    exact List.mem_cons.mpr (Or.inr (List.mem_cons.mpr (Or.inr (List.mem_cons.mpr
      (Or.inl rfl)))))
  · rw [hfv]
    intro x hx
    rcases List.mem_cons.mp hx with rfl | hx
    · norm_num
    · rcases List.mem_cons.mp hx with rfl | hx
      · norm_num
      · rcases List.mem_cons.mp hx with rfl | hx
        · exact le_refl _
        · cases hx
  · rw [h.2.2.2, hfv]
    rfl

/-! ### Silent image loader (`_load_image_silent`) -/

/-- A numpy array of the dimensionalities the loader's channel-collapse
logic distinguishes (2-, 3- and 4-dimensional; 0-, 1- and ≥5-dimensional
arrays pass through the collapse untouched and never reach the claims
below).  Entries are exact rationals standing for the float values. -/
inductive NpArray where
  | d2 (h w : Nat) (data : Fin h → Fin w → ℚ)
  | d3 (h w c : Nat) (data : Fin h → Fin w → Fin c → ℚ)
  | d4 (a b h w : Nat) (data : Fin a → Fin b → Fin h → Fin w → ℚ)

/-- The multi-channel collapse of `_load_image_silent` (lines after the
per-format read): a `(H,W,3)` array becomes the channel mean, `(H,W,4)`
the mean of the first three channels, other 3-d arrays keep channel 0,
4-d arrays are indexed down to a plane.  Out-of-range indexing (an empty
axis) raises `IndexError` in numpy, which the surrounding `except`
converts to `None` — modelled by `none`. -/
def collapse_channels : NpArray → Option NpArray
  | .d2 h w d => some (.d2 h w d)
  | .d3 h w c d =>
    if hc3 : c = 3 then
      some (.d2 h w (fun i j => (∑ k : Fin c, d i j k) / 3))
    else if c = 4 then
      some (.d2 h w (fun i j =>
        (∑ k ∈ Finset.univ.filter (fun k : Fin c => (k : Nat) < 3), d i j k) / 3))
    else if hc0 : 0 < c then
      some (.d2 h w (fun i j => d i j ⟨0, hc0⟩))
    else none
  | .d4 a b h w d =>
    if ha : 1 < a then
      if hb : 0 < b then
        some (.d2 h w (fun i j => d ⟨0, by omega⟩ ⟨0, hb⟩ i j))
      else none
    else
      if ha0 : 0 < a then
        if hw : 0 < w then
          some (.d2 b h (fun i j => d ⟨0, ha0⟩ i j ⟨0, hw⟩))
        else none
      else none

/-- Outcome of one underlying read call (`tifffile.imread`,
`ND2Reader`/`np.array`, or `PIL.Image.open`): a decoded array, or a
raised exception (`err` — unsupported/corrupt file, read failure). -/
inductive ReadResult where
  | ok (a : NpArray)
  | err

/-- The ambient filesystem and image libraries, as the loader observes
them: existence of a path and the result of each format-specific read. -/
structure FSModel where
  file_exists : String → Bool
  read_tiff : String → ReadResult
  read_nd2 : String → ReadResult
  read_generic : String → ReadResult

/-- Python `str.lower` (ASCII behaviour of `Char.toLower`). -/
def lowerStr (s : String) : String :=
  String.mk (s.toList.map Char.toLower)

/-- The format dispatch of `_load_image_silent`:
`ext = os.path.splitext(filepath)[1].lower()`, then tifffile for
`.tif`/`.tiff`, nd2reader for `.nd2`, PIL for everything else. -/
def dispatch_read (fs : FSModel) (filepath : String) : ReadResult :=
  let ext := lowerStr (splitextExt (basename filepath))
  if ext = ".tif" ∨ ext = ".tiff" then fs.read_tiff filepath
  else if ext = ".nd2" then fs.read_nd2 filepath
  else fs.read_generic filepath

/-- Embedding of `_load_image_silent`: missing path gives `None`; any
exception from the read or the collapse gives `None` (the bare
`except Exception`); otherwise the collapsed array (`astype(float64)` is
the identity on the rational model). -/
def load_image_silent (fs : FSModel) (filepath : String) : Option NpArray :=
  if !fs.file_exists filepath then none
  else
    match dispatch_read fs filepath with
    | .err => none
    | .ok a => collapse_channels a

/-- C7: a successfully read `(H,W,3)` array is collapsed to the `(H,W)`
arithmetic mean over the channel axis, and the loader returns exactly
that plane. -/
theorem C7_rgb_mean (fs : FSModel) (filepath : String) (h w : Nat)
    (d : Fin h → Fin w → Fin 3 → ℚ)
    (hex : fs.file_exists filepath = true)
    (hread : dispatch_read fs filepath = .ok (.d3 h w 3 d)) :
    load_image_silent fs filepath =
      some (.d2 h w (fun i j => (d i j 0 + d i j 1 + d i j 2) / 3)) := by
  unfold load_image_silent
  rw [hex, hread]
  simp only [Bool.not_true, Bool.false_eq_true, if_false, collapse_channels]
  rw [dif_pos trivial]
  congr 1
  congr 1
  funext i j
  rw [Fin.sum_univ_three]

/-- Witness for C7: a 1×1 RGB tiff with channel values 1, 2, 3 loads as
the plane of value `(1+2+3)/3`. -/
theorem C7_rgb_mean_witness :
    load_image_silent
      ⟨fun _ => true, fun _ => .ok (.d3 1 1 3 (fun _ _ k => (k : ℚ) + 1)),
        fun _ => .err, fun _ => .err⟩ "/d/img.tif" =
      some (.d2 1 1 (fun i j =>
        ((fun _ _ k => (k : ℚ) + 1 : Fin 1 → Fin 1 → Fin 3 → ℚ) i j 0 +
         (fun _ _ k => (k : ℚ) + 1 : Fin 1 → Fin 1 → Fin 3 → ℚ) i j 1 +
         (fun _ _ k => (k : ℚ) + 1 : Fin 1 → Fin 1 → Fin 3 → ℚ) i j 2) / 3)) :=
  C7_rgb_mean
    ⟨fun _ => true, fun _ => .ok (.d3 1 1 3 (fun _ _ k => (k : ℚ) + 1)),
      fun _ => .err, fun _ => .err⟩ "/d/img.tif" 1 1 (fun _ _ k => (k : ℚ) + 1)
    rfl (by rfl)

/-- C8: the silent loader returns `None` instead of raising — a missing
path gives `None`, a read/decode exception gives `None`, and a
successful read yields the collapsed array (which is itself `None` when
the collapse indexing would raise). -/
theorem C8_silent_load_never_raises (fs : FSModel) (filepath : String) :
    (fs.file_exists filepath = false → load_image_silent fs filepath = none) ∧
    (dispatch_read fs filepath = .err → load_image_silent fs filepath = none) ∧
    (∀ a, fs.file_exists filepath = true → dispatch_read fs filepath = .ok a →
      load_image_silent fs filepath = collapse_channels a) := by
  refine ⟨?_, ?_, ?_⟩
  · intro hne
    unfold load_image_silent
    rw [hne]
    rfl
  · intro herr
    unfold load_image_silent
    rw [herr]
    by_cases hex : fs.file_exists filepath <;> simp [hex]
  · intro a hex hok
    unfold load_image_silent
    rw [hex, hok]
    rfl

/-- Witness for C8: a nonexistent path and a corrupt unsupported file
both load as `None`. -/
theorem C8_silent_load_never_raises_witness :
    load_image_silent ⟨fun _ => false, fun _ => .err, fun _ => .err, fun _ => .err⟩
      "/d/missing.tif" = none ∧
    load_image_silent ⟨fun _ => true, fun _ => .err, fun _ => .err, fun _ => .err⟩
      "/d/corrupt.xyz" = none :=
  ⟨(C8_silent_load_never_raises ⟨fun _ => false, fun _ => .err, fun _ => .err, fun _ => .err⟩
      "/d/missing.tif").1 rfl,
   (C8_silent_load_never_raises ⟨fun _ => true, fun _ => .err, fun _ => .err, fun _ => .err⟩
      "/d/corrupt.xyz").2.1 (by rfl)⟩

/-! ### Incremental preview manager (`output_workspace.py`)

The debounce timer only coalesces bursts of toggles; the claims below are
about one completed (debounced) `_update_preview` pass, so the model is
the pass itself.  The cancellable progress dialog is not modelled (a
cancelled pass is an aborted rebuild, outside the claims).  Python
iterates `groups_to_add`/`groups_to_remove` as sets; the model fixes the
iteration order to the originating list order, and no claim below
depends on it.  A rendered sheet widget is identified with the data its
rendering is a pure function of: group name, group id, the group's rows,
and the global display options at render time. -/

/-- The two global display options read inside `_render_sheet_content`
(`logscale_toggle`, `norm_toggle`). -/
structure DisplayOpts where
  log_scale : Bool
  normalize : Bool
deriving DecidableEq, Repr

/-- The rendered content of one sheet: the inputs `_create_sheet` renders
from. -/
structure SheetContent where
  group_name : String
  group_id : Nat
  rows : List FileRow
  opts : DisplayOpts
deriving DecidableEq, Repr

/-- One entry of the `_rendered_sheets` dict:
`group_name ↦ (group_id, sheet_widget)`. -/
structure CacheEntry where
  name : String
  gid : Nat
  sheet : SheetContent
deriving DecidableEq, Repr

/-- The mutable preview state of the Output workspace:
`_rendered_sheets` (insertion-ordered dict), the order of sheet widgets
inside `sheets_layout`, and the `_force_full_rebuild` flag. -/
structure PreviewState where
  rendered_sheets : List CacheEntry
  layout : List String
  force_full_rebuild : Bool
deriving DecidableEq, Repr

/-- Embedding of `_clear_preview`: drop every sheet widget and empty the
cache (the flag is untouched). -/
def clear_preview (st : PreviewState) : PreviewState :=
  { st with rendered_sheets := [], layout := [] }

/-- The loaded pickle `DataFrame`: its rows plus which of the required
columns exist. -/
structure DataTable where
  rows : List FileRow
  has_filename : Bool
  has_directory : Bool
  has_group : Bool
  has_group_id : Bool
  has_threshold : Bool
deriving DecidableEq, Repr

/-- `group_df = self._dataframe[self._dataframe["Group"] == group_name]`. -/
def group_rows (t : DataTable) (g : String) : List FileRow :=
  t.rows.filter (fun r => r.group == g)

/-- Rendering one new sheet for a group inside `_update_preview`: skip
empty groups (`continue`), otherwise take `group_id` from the first row
(`iloc[0]`) and build the sheet from the group's rows and the current
display options. -/
def render_entry (t : DataTable) (opts : DisplayOpts) (g : String) : Option CacheEntry :=
  match group_rows t g with
  | [] => none
  | r :: rs => some ⟨g, r.group_id, ⟨g, r.group_id, r :: rs, opts⟩⟩

/-- Comparator of `_reorder_sheets`' `sorted(..., key=group_id)`. -/
def gid_le (a b : CacheEntry) : Bool :=
  a.gid ≤ b.gid

/-- Embedding of `_reorder_sheets`: early-out on an empty cache,
otherwise rebuild the layout as the cache stably sorted by `Group_ID`. -/
def reorder_sheets (st : PreviewState) : PreviewState :=
  if st.rendered_sheets.isEmpty then st
  else { st with layout := (sortBy gid_le st.rendered_sheets).map (fun e => e.name) }

/-- One iteration of the `for group_name in groups_to_add` loop: render
the group's sheet (if the group has rows), store it in the cache and
append its widget to the layout. -/
def add_sheet_step (t : DataTable) (opts : DisplayOpts) (s : PreviewState) (g : String) :
    PreviewState :=
  match render_entry t opts g with
  | none => s
  | some e =>
    { s with rendered_sheets := s.rendered_sheets ++ [e], layout := s.layout ++ [g] }

/-- The diff/apply part of `_update_preview`, after all guards: compute
`to_remove`/`to_add` from the cache and the selection, evict removed
sheets from the cache and layout, render the additions, and re-sort the
layout by `Group_ID`. -/
def update_preview_core (t : DataTable) (selected : List String) (opts : DisplayOpts)
    (st₁ : PreviewState) : PreviewState :=
  let currently_rendered := st₁.rendered_sheets.map (fun e => e.name)
  let groups_to_remove := currently_rendered.filter (fun g => !selected.contains g)
  let groups_to_add := selected.filter (fun g => !currently_rendered.contains g)
  let st₂ : PreviewState :=
    { st₁ with
      rendered_sheets :=
        st₁.rendered_sheets.filter (fun e => !groups_to_remove.contains e.name),
      layout := st₁.layout.filter (fun n => !groups_to_remove.contains n) }
  if groups_to_add.isEmpty then reorder_sheets st₂
  else reorder_sheets (groups_to_add.foldl (add_sheet_step t opts) st₂)

/-- Embedding of `_update_preview`: the guard chain (no data, missing
required columns, no threshold column, no selected group) clears the
preview and shows a placeholder; a pending `_force_full_rebuild` clears
the cache first and resets the flag; then the incremental diff runs. -/
def update_preview (df : Option DataTable) (selected : List String) (opts : DisplayOpts)
    (st : PreviewState) : PreviewState :=
  match df with
  | none => clear_preview st
  | some t =>
    if t.rows.isEmpty then clear_preview st
    else if !(t.has_filename && t.has_directory && t.has_group && t.has_group_id) then
      clear_preview st
    else if !t.has_threshold then clear_preview st
    else if selected.isEmpty then clear_preview st
    else if st.force_full_rebuild then
      update_preview_core t selected opts { clear_preview st with force_full_rebuild := false }
    else
      update_preview_core t selected opts st

/-- Embedding of `_on_display_option_changed`: set `_force_full_rebuild`
(the debounced `_update_preview` runs later). -/
def on_display_option_changed (st : PreviewState) : PreviewState :=
  { st with force_full_rebuild := true }

/-- The `Group_ID`s of the sheets in layout order, looked up in the
cache. -/
def displayed_gids (st : PreviewState) : List Nat :=
  st.layout.filterMap (fun n =>
    (st.rendered_sheets.find? (fun e => e.name == n)).map (fun e => e.gid))

/-! ### Preview manager lemmas -/

lemma contains_iff {α : Type} [BEq α] [LawfulBEq α] (l : List α) (a : α) :
    l.contains a = true ↔ a ∈ l := by
  simp

lemma gid_le_total (a b : CacheEntry) : gid_le a b = true ∨ gid_le b a = true := by
  unfold gid_le
  rcases Nat.le_total a.gid b.gid with h | h
  · exact Or.inl (decide_eq_true h)
  · exact Or.inr (decide_eq_true h)

lemma gid_le_trans (a b c : CacheEntry) :
    gid_le a b = true → gid_le b c = true → gid_le a c = true := by
  unfold gid_le
  intro h₁ h₂
  exact decide_eq_true (Nat.le_trans (of_decide_eq_true h₁) (of_decide_eq_true h₂))

lemma render_entry_props {t : DataTable} {opts : DisplayOpts} {g : String} {e : CacheEntry}
    (h : render_entry t opts g = some e) :
    e.name = g ∧ e.sheet.opts = opts ∧ e.sheet.rows = group_rows t g ∧
      e.sheet.group_name = g ∧ e.sheet.group_id = e.gid := by
  unfold render_entry at h
  cases hg : group_rows t g with
  | nil => rw [hg] at h; cases h
  | cons r rs =>
    rw [hg] at h
    cases h
    exact ⟨rfl, rfl, rfl, rfl, rfl⟩

lemma render_entry_of_nonempty {t : DataTable} {opts : DisplayOpts} {g : String}
    (h : group_rows t g ≠ []) :
    ∃ e, render_entry t opts g = some e ∧ e.name = g := by
  unfold render_entry
  cases hg : group_rows t g with
  | nil => exact absurd hg h
  | cons r rs => exact ⟨_, rfl, rfl⟩

lemma fold_add_spec (t : DataTable) (opts : DisplayOpts) (gs : List String)
    (hne : ∀ g ∈ gs, group_rows t g ≠ []) :
    ∀ s : PreviewState, ∃ es : List CacheEntry,
      (gs.foldl (add_sheet_step t opts) s).rendered_sheets = s.rendered_sheets ++ es ∧
      (gs.foldl (add_sheet_step t opts) s).layout = s.layout ++ gs ∧
      (gs.foldl (add_sheet_step t opts) s).force_full_rebuild = s.force_full_rebuild ∧
      es.map (fun e => e.name) = gs ∧
      (∀ e ∈ es, render_entry t opts e.name = some e) := by
  induction gs with
  | nil =>
    intro s
    exact ⟨[], by simp, by simp, rfl, rfl, by intro e he; cases he⟩
  | cons g gs' ih =>
    intro s
    obtain ⟨e, hre, hname⟩ :=
      @render_entry_of_nonempty t opts g (hne g (List.mem_cons_self _ _))
    have hstep : add_sheet_step t opts s g =
        { s with rendered_sheets := s.rendered_sheets ++ [e], layout := s.layout ++ [g] } := by
      unfold add_sheet_step
      rw [hre]
    obtain ⟨es', h₁, h₂, h₃, h₄, h₅⟩ :=
      ih (fun g' hg' => hne g' (List.mem_cons_of_mem _ hg'))
        (add_sheet_step t opts s g)
    refine ⟨e :: es', ?_, ?_, ?_, ?_, ?_⟩
    · rw [List.foldl_cons, h₁, hstep]
      simp
    · rw [List.foldl_cons, h₂, hstep]
      simp
    · rw [List.foldl_cons, h₃, hstep]
    · simp [h₄, hname]
    · intro e₁ he₁
      rcases List.mem_cons.mp he₁ with rfl | hmem
      · rw [hname]
        exact hre
      · exact h₅ e₁ hmem

lemma find_name_unique (l : List CacheEntry) (e : CacheEntry)
    (he : e ∈ l) (hnd : (l.map (fun x => x.name)).Nodup) :
    l.find? (fun x => x.name == e.name) = some e := by
  induction l with
  | nil => cases he
  | cons x xs ih =>
    rcases List.mem_cons.mp he with rfl | hmem
    · simp [List.find?_cons]
    · simp only [List.map_cons] at hnd
      have hxe : x.name ≠ e.name := by
        intro hc
        apply (List.nodup_cons.mp hnd).1
        rw [hc]
        exact List.mem_map_of_mem _ hmem
      rw [List.find?_cons_of_neg]
      · exact ih hmem (List.nodup_cons.mp hnd).2
      · simp [hxe]

lemma displayed_gids_sorted (st : PreviewState)
    (hnd : (st.rendered_sheets.map (fun e => e.name)).Nodup)
    (hlay : st.layout = (sortBy gid_le st.rendered_sheets).map (fun e => e.name)) :
    displayed_gids st = (sortBy gid_le st.rendered_sheets).map (fun e => e.gid) ∧
    List.Pairwise (fun a b => a ≤ b) (displayed_gids st) := by
  have hmain : displayed_gids st = (sortBy gid_le st.rendered_sheets).map (fun e => e.gid) := by
    unfold displayed_gids
    rw [hlay, List.filterMap_map]
    have hsub : ∀ e ∈ sortBy gid_le st.rendered_sheets, e ∈ st.rendered_sheets :=
      fun e he => (sortBy_perm gid_le st.rendered_sheets).mem_iff.mp he
    have hgen : ∀ l : List CacheEntry, (∀ e ∈ l, e ∈ st.rendered_sheets) →
        l.filterMap ((fun n => (st.rendered_sheets.find? (fun e => e.name == n)).map
          (fun e => e.gid)) ∘ (fun e => e.name)) = l.map (fun e => e.gid) := by
      intro l
      induction l with
      | nil => intro _; rfl
      | cons e₀ l' ihl =>
        intro hl
        have hfind := find_name_unique st.rendered_sheets e₀
          (hl e₀ (List.mem_cons_self _ _)) hnd
        simp only [List.filterMap_cons, Function.comp_apply, hfind, Option.map_some',
          List.map_cons]
        rw [ihl (fun e he => hl e (List.mem_cons_of_mem _ he))]
    exact hgen _ hsub
  refine ⟨hmain, ?_⟩
  rw [hmain]
  have hpw := sortBy_pairwise gid_le gid_le_total gid_le_trans st.rendered_sheets
  rw [List.pairwise_map]
  exact hpw.imp (fun h => of_decide_eq_true h)

lemma update_preview_core_spec (t : DataTable) (selected : List String) (opts : DisplayOpts)
    (st₁ : PreviewState)
    (hgrp : ∀ g ∈ selected, group_rows t g ≠ [])
    (hselne : selected ≠ []) :
    ∃ es : List CacheEntry,
      (update_preview_core t selected opts st₁).rendered_sheets =
        st₁.rendered_sheets.filter (fun e => selected.contains e.name) ++ es ∧
      es.map (fun e => e.name) =
        selected.filter
          (fun g => !(st₁.rendered_sheets.map (fun e => e.name)).contains g) ∧
      (∀ e ∈ es, render_entry t opts e.name = some e) ∧
      (update_preview_core t selected opts st₁).layout =
        (sortBy gid_le (update_preview_core t selected opts st₁).rendered_sheets).map
          (fun e => e.name) ∧
      (update_preview_core t selected opts st₁).force_full_rebuild =
        st₁.force_full_rebuild := by
  unfold update_preview_core
  have hfiltereq :
      st₁.rendered_sheets.filter
        (fun e => !((st₁.rendered_sheets.map (fun e₁ => e₁.name)).filter
          (fun g => !selected.contains g)).contains e.name) =
      st₁.rendered_sheets.filter (fun e => selected.contains e.name) := by
    apply List.filter_congr
    intro e he
    have hmem : e.name ∈ st₁.rendered_sheets.map (fun e₁ => e₁.name) :=
      List.mem_map_of_mem _ he
    by_cases hsel : e.name ∈ selected
    · have h₁ : selected.contains e.name = true := (contains_iff _ _).mpr hsel
      have h₂ : ((st₁.rendered_sheets.map (fun e₁ => e₁.name)).filter
          (fun g => !selected.contains g)).contains e.name = false := by
        apply Bool.eq_false_iff.mpr
        intro hc
        have hm := (contains_iff _ _).mp hc
        have := (List.mem_filter.mp hm).2
        rw [h₁] at this
        cases this
      rw [h₁, h₂]
      rfl
    · have h₁ : selected.contains e.name = false :=
        Bool.eq_false_iff.mpr (fun hc => hsel ((contains_iff _ _).mp hc))
      have h₂ : ((st₁.rendered_sheets.map (fun e₁ => e₁.name)).filter
          (fun g => !selected.contains g)).contains e.name = true := by
        apply (contains_iff _ _).mpr
        apply List.mem_filter.mpr
        exact ⟨hmem, by rw [h₁]; rfl⟩
      rw [h₁, h₂]
      rfl
  have hkept_ne : ∀ g ∈ selected, g ∈ st₁.rendered_sheets.map (fun e => e.name) →
      st₁.rendered_sheets.filter (fun e => selected.contains e.name) ≠ [] := by
    intro g hgsel hgcache
    obtain ⟨e, he, hen⟩ := List.mem_map.mp hgcache
    intro hnil
    have : e ∈ st₁.rendered_sheets.filter (fun e₁ => selected.contains e₁.name) :=
      List.mem_filter.mpr ⟨he, (contains_iff _ _).mpr (hen ▸ hgsel)⟩
    rw [hnil] at this
    cases this
  by_cases hadd : (selected.filter
      (fun g => !(st₁.rendered_sheets.map (fun e => e.name)).contains g)).isEmpty = true
  · have haddnil := List.isEmpty_iff.mp hadd
    rw [if_pos hadd]
    refine ⟨[], ?_, ?_, ?_, ?_, ?_⟩
    · unfold reorder_sheets
      split
      · next hre =>
        exfalso
        obtain ⟨g, hgsel⟩ := List.exists_mem_of_ne_nil selected hselne
        have hincache : g ∈ st₁.rendered_sheets.map (fun e => e.name) := by
          by_contra hnc
          have : g ∈ selected.filter
              (fun g₁ => !(st₁.rendered_sheets.map (fun e => e.name)).contains g₁) :=
            List.mem_filter.mpr ⟨hgsel, by
              rw [Bool.eq_false_iff.mpr (fun hc => hnc ((contains_iff _ _).mp hc))]
              rfl⟩
          rw [haddnil] at this
          cases this
        have hne := hkept_ne g hgsel hincache
        apply hne
        rw [← hfiltereq]
        exact List.isEmpty_iff.mp hre
      · simp only [hfiltereq, List.append_nil]
    · rw [haddnil]
      rfl
    · intro e he
      cases he
    · unfold reorder_sheets
      split
      · next hre =>
        exfalso
        obtain ⟨g, hgsel⟩ := List.exists_mem_of_ne_nil selected hselne
        have hincache : g ∈ st₁.rendered_sheets.map (fun e => e.name) := by
          by_contra hnc
          have : g ∈ selected.filter
              (fun g₁ => !(st₁.rendered_sheets.map (fun e => e.name)).contains g₁) :=
            List.mem_filter.mpr ⟨hgsel, by
              rw [Bool.eq_false_iff.mpr (fun hc => hnc ((contains_iff _ _).mp hc))]
              rfl⟩
          rw [haddnil] at this
          cases this
        have hne := hkept_ne g hgsel hincache
        apply hne
        rw [← hfiltereq]
        exact List.isEmpty_iff.mp hre
      · simp
    · unfold reorder_sheets
      split <;> rfl
  · rw [if_neg hadd]
    have htoAdd_grp : ∀ g ∈ selected.filter
        (fun g => !(st₁.rendered_sheets.map (fun e => e.name)).contains g),
        group_rows t g ≠ [] :=
      fun g hg => hgrp g (List.mem_filter.mp hg).1
    obtain ⟨es, h₁, h₂, h₃, h₄, h₅⟩ := fold_add_spec t opts _ htoAdd_grp
      { st₁ with
        rendered_sheets :=
          st₁.rendered_sheets.filter
            (fun e => !((st₁.rendered_sheets.map (fun e₁ => e₁.name)).filter
              (fun g => !selected.contains g)).contains e.name),
        layout :=
          st₁.layout.filter
            (fun n => !((st₁.rendered_sheets.map (fun e₁ => e₁.name)).filter
              (fun g => !selected.contains g)).contains n) }
    have hesne : es ≠ [] := by
      intro hnil
      rw [hnil] at h₄
      have : (selected.filter
          (fun g => !(st₁.rendered_sheets.map (fun e => e.name)).contains g)) = [] := h₄.symm
      rw [this] at hadd
      exact hadd rfl
    refine ⟨es, ?_, h₄, h₅, ?_, ?_⟩
    · unfold reorder_sheets
      split
      · next hre =>
        exfalso
        have := List.isEmpty_iff.mp hre
        rw [h₁] at this
        rcases List.append_eq_nil.mp this with ⟨_, hes⟩
        exact hesne hes
      · rw [h₁]
        simp only [hfiltereq]
    · unfold reorder_sheets
      split
      · next hre =>
        exfalso
        have := List.isEmpty_iff.mp hre
        rw [h₁] at this
        rcases List.append_eq_nil.mp this with ⟨_, hes⟩
        exact hesne hes
      · simp
    · unfold reorder_sheets
      split
      · next => exact h₃
      · exact h₃

lemma update_preview_eq_core (t : DataTable) (selected : List String) (opts : DisplayOpts)
    (st : PreviewState)
    (hrows : t.rows ≠ [])
    (hf : t.has_filename = true) (hd : t.has_directory = true) (hg : t.has_group = true)
    (hgi : t.has_group_id = true) (hth : t.has_threshold = true)
    (hselne : selected ≠ []) (hforce : st.force_full_rebuild = false) :
    update_preview (some t) selected opts st = update_preview_core t selected opts st := by
  have h1 : t.rows.isEmpty = false := by
    rw [List.isEmpty_eq_false]
    exact hrows
  have h2 : selected.isEmpty = false := by
    rw [List.isEmpty_eq_false]
    exact hselne
  unfold update_preview
  simp [h1, h2, hf, hd, hg, hgi, hth, hforce]

/-- C1: a debounced preview rebuild over a loaded table with all required
columns, at least one selected group and no pending full-rebuild flag
keeps exactly the cached sheets of still-selected groups, evicts from the
cache and the layout exactly the groups in cached − selected, renders one
new sheet for each group in selected − cached, ends with cache keys a
permutation of the selection, and displays the sheets in ascending
`Group_ID` order. -/
theorem C1_preview_diff_and_order (t : DataTable) (selected : List String)
    (opts : DisplayOpts) (st : PreviewState)
    (hrows : t.rows ≠ [])
    (hf : t.has_filename = true) (hd : t.has_directory = true) (hg : t.has_group = true)
    (hgi : t.has_group_id = true) (hth : t.has_threshold = true)
    (hselne : selected ≠ []) (hselnd : selected.Nodup)
    (hforce : st.force_full_rebuild = false)
    (hnd : (st.rendered_sheets.map (fun e => e.name)).Nodup)
    (hgrp : ∀ g ∈ selected, group_rows t g ≠ []) :
    (∀ e ∈ st.rendered_sheets, e.name ∈ selected →
      e ∈ (update_preview (some t) selected opts st).rendered_sheets) ∧
    (∀ e ∈ st.rendered_sheets, e.name ∉ selected →
      e.name ∉ (update_preview (some t) selected opts st).rendered_sheets.map
        (fun e₁ => e₁.name) ∧
      e.name ∉ (update_preview (some t) selected opts st).layout) ∧
    (∀ g ∈ selected, g ∉ st.rendered_sheets.map (fun e => e.name) →
      ∃ e ∈ (update_preview (some t) selected opts st).rendered_sheets,
        render_entry t opts g = some e) ∧
    ((update_preview (some t) selected opts st).rendered_sheets.map
      (fun e => e.name)).Nodup ∧
    ((update_preview (some t) selected opts st).rendered_sheets.map
      (fun e => e.name)).Perm selected ∧
    List.Pairwise (fun a b => a ≤ b)
      (displayed_gids (update_preview (some t) selected opts st)) := by
  rw [update_preview_eq_core t selected opts st hrows hf hd hg hgi hth hselne hforce]
  obtain ⟨es, hren, hesnames, hesrender, hlay, _⟩ :=
    update_preview_core_spec t selected opts st hgrp hselne
  have hmapname : (update_preview_core t selected opts st).rendered_sheets.map
      (fun e => e.name) =
      (st.rendered_sheets.filter (fun e => selected.contains e.name)).map (fun e => e.name)
        ++ es.map (fun e => e.name) := by
    rw [hren, List.map_append]
  have hK_sub : ∀ x, x ∈ (st.rendered_sheets.filter
      (fun e => selected.contains e.name)).map (fun e => e.name) →
      x ∈ st.rendered_sheets.map (fun e => e.name) ∧ x ∈ selected := by
    intro x hx
    obtain ⟨e, he, hxe⟩ := List.mem_map.mp hx
    obtain ⟨hel, hpred⟩ := List.mem_filter.mp he
    exact ⟨hxe ▸ List.mem_map_of_mem _ hel, hxe ▸ (contains_iff _ _).mp hpred⟩
  have hKnd : ((st.rendered_sheets.filter (fun e => selected.contains e.name)).map
      (fun e => e.name)).Nodup :=
    hnd.sublist ((List.filter_sublist _).map _)
  have hesnd : (es.map (fun e => e.name)).Nodup := by
    rw [hesnames]
    exact hselnd.filter _
  have hdisj : ((st.rendered_sheets.filter (fun e => selected.contains e.name)).map
      (fun e => e.name)).Disjoint (es.map (fun e => e.name)) := by
    intro x hxK hxE
    rw [hesnames] at hxE
    have hxN := (hK_sub x hxK).1
    have hcon := (List.mem_filter.mp hxE).2
    rw [(contains_iff _ _).mpr hxN] at hcon
    cases hcon
  have hnd' : ((update_preview_core t selected opts st).rendered_sheets.map
      (fun e => e.name)).Nodup := by
    rw [hmapname]
    exact List.nodup_append.mpr ⟨hKnd, hesnd, hdisj⟩
  have hperm : ((update_preview_core t selected opts st).rendered_sheets.map
      (fun e => e.name)).Perm selected := by
    apply (List.perm_ext_iff_of_nodup hnd' hselnd).mpr
    intro x
    constructor
    · intro hx
      rw [hmapname] at hx
      rcases List.mem_append.mp hx with hxK | hxE
      · exact (hK_sub x hxK).2
      · rw [hesnames] at hxE
        exact (List.mem_filter.mp hxE).1
    · intro hx
      rw [hmapname]
      apply List.mem_append.mpr
      by_cases hxc : x ∈ st.rendered_sheets.map (fun e => e.name)
      · left
        obtain ⟨e, he, hxe⟩ := List.mem_map.mp hxc
        apply List.mem_map.mpr
        refine ⟨e, List.mem_filter.mpr ⟨he, ?_⟩, hxe⟩
        exact (contains_iff _ _).mpr (hxe ▸ hx)
      · right
        rw [hesnames]
        apply List.mem_filter.mpr
        refine ⟨hx, ?_⟩
        rw [Bool.eq_false_iff.mpr (fun hc => hxc ((contains_iff _ _).mp hc))]
        rfl
  refine ⟨?_, ?_, ?_, hnd', hperm, ?_⟩
  · intro e he hsel
    rw [hren]
    apply List.mem_append.mpr
    left
    exact List.mem_filter.mpr ⟨he, (contains_iff _ _).mpr hsel⟩
  · intro e he hsel
    constructor
    · intro hc
      exact hsel (hperm.mem_iff.mp hc)
    · intro hc
      rw [hlay] at hc
      have := ((sortBy_perm gid_le _).map (fun e => e.name)).mem_iff.mp hc
      exact hsel (hperm.mem_iff.mp this)
  · intro g hgsel hgcache
    have hgadd : g ∈ es.map (fun e => e.name) := by
      rw [hesnames]
      apply List.mem_filter.mpr
      refine ⟨hgsel, ?_⟩
      rw [Bool.eq_false_iff.mpr (fun hc => hgcache ((contains_iff _ _).mp hc))]
      rfl
    obtain ⟨e, he, hge⟩ := List.mem_map.mp hgadd
    refine ⟨e, ?_, ?_⟩
    · rw [hren]
      exact List.mem_append.mpr (Or.inr he)
    · rw [← hge]
      exact hesrender e he
  · exact (displayed_gids_sorted _ hnd' hlay).2

/-- Concrete two-group table for the C1 witness. -/
def c1Table : DataTable :=
  ⟨[⟨"g1_a.tif", "/d", "g1", 1, 5, none⟩, ⟨"g2_b.tif", "/d", "g2", 2, 5, none⟩],
    true, true, true, true, true⟩

/-- Concrete starting state for the C1 witness: one stale sheet for a
group `"g3"` that is about to be deselected. -/
def c1State : PreviewState :=
  ⟨[⟨"g3", 7, ⟨"g3", 7, [], ⟨false, false⟩⟩⟩], ["g3"], false⟩

/-- Witness for C1: toggling to the selection `["g2", "g1"]` evicts the
stale `"g3"` sheet, renders the two selected groups, and displays them in
ascending `Group_ID` order. -/
theorem C1_preview_diff_and_order_witness :
    (∀ e ∈ c1State.rendered_sheets, e.name ∈ ["g2", "g1"] →
      e ∈ (update_preview (some c1Table) ["g2", "g1"] ⟨false, false⟩
        c1State).rendered_sheets) ∧
    (∀ e ∈ c1State.rendered_sheets, e.name ∉ ["g2", "g1"] →
      e.name ∉ (update_preview (some c1Table) ["g2", "g1"] ⟨false, false⟩
        c1State).rendered_sheets.map (fun e₁ => e₁.name) ∧
      e.name ∉ (update_preview (some c1Table) ["g2", "g1"] ⟨false, false⟩ c1State).layout) ∧
    (∀ g ∈ ["g2", "g1"], g ∉ c1State.rendered_sheets.map (fun e => e.name) →
      ∃ e ∈ (update_preview (some c1Table) ["g2", "g1"] ⟨false, false⟩
          c1State).rendered_sheets,
        render_entry c1Table ⟨false, false⟩ g = some e) ∧
    ((update_preview (some c1Table) ["g2", "g1"] ⟨false, false⟩ c1State).rendered_sheets.map
      (fun e => e.name)).Nodup ∧
    ((update_preview (some c1Table) ["g2", "g1"] ⟨false, false⟩ c1State).rendered_sheets.map
      (fun e => e.name)).Perm ["g2", "g1"] ∧
    List.Pairwise (fun a b => a ≤ b)
      (displayed_gids (update_preview (some c1Table) ["g2", "g1"] ⟨false, false⟩ c1State)) :=
  C1_preview_diff_and_order c1Table ["g2", "g1"] ⟨false, false⟩ c1State
    (by decide) rfl rfl rfl rfl rfl (by decide) (by decide) rfl (by decide) (by decide)

lemma update_preview_force (t : DataTable) (selected : List String) (opts : DisplayOpts)
    (st : PreviewState)
    (hrows : t.rows ≠ [])
    (hf : t.has_filename = true) (hd : t.has_directory = true) (hg : t.has_group = true)
    (hgi : t.has_group_id = true) (hth : t.has_threshold = true)
    (hselne : selected ≠ []) (hforce : st.force_full_rebuild = true) :
    update_preview (some t) selected opts st =
      update_preview_core t selected opts
        { clear_preview st with force_full_rebuild := false } := by
  have h1 : t.rows.isEmpty = false := by
    rw [List.isEmpty_eq_false]
    exact hrows
  have h2 : selected.isEmpty = false := by
    rw [List.isEmpty_eq_false]
    exact hselne
  unfold update_preview
  simp [h1, h2, hf, hd, hg, hgi, hth, hforce]

lemma cacheEntry_eq_filterMap_render (t : DataTable) (opts : DisplayOpts)
    (l : List CacheEntry)
    (h : ∀ e ∈ l, render_entry t opts e.name = some e) :
    l = (l.map (fun e => e.name)).filterMap (fun n => render_entry t opts n) := by
  induction l with
  | nil => rfl
  | cons e l' ih =>
    simp only [List.map_cons, List.filterMap_cons, h e (List.mem_cons_self _ _)]
    rw [← ih (fun e₁ he₁ => h e₁ (List.mem_cons_of_mem _ he₁))]

lemma filter_name_eq_singleton (l : List CacheEntry) (e₀ : CacheEntry) (g : String)
    (hnd : (l.map (fun e => e.name)).Nodup) (he : e₀ ∈ l) (hname : e₀.name = g) :
    l.filter (fun e => e.name == g) = [e₀] := by
  induction l with
  | nil => cases he
  | cons x xs ih =>
    simp only [List.map_cons] at hnd
    rcases List.mem_cons.mp he with rfl | hmem
    · have hrest : xs.filter (fun e => e.name == g) = [] := by
        apply List.filter_eq_nil_iff.mpr
        intro e₁ he₁ hbeq
        apply (List.nodup_cons.mp hnd).1
        rw [hname, ← beq_iff_eq.mp hbeq]
        exact List.mem_map_of_mem _ he₁
      simp [List.filter_cons, hname, hrest]
    · have hxg : x.name ≠ g := by
        intro hc
        apply (List.nodup_cons.mp hnd).1
        rw [hc, ← hname]
        exact List.mem_map_of_mem _ hmem
      simp only [List.filter_cons, beq_eq_false_iff_ne.mpr hxg]
      simpa using ih (List.nodup_cons.mp hnd).2 hmem

/-- C5: after a display-option change (log-scale or normalization), the
next debounced rebuild discards every cached sheet and renders one fresh
sheet per currently selected group — so every cached sheet afterwards was
produced by `render_entry` with the current display options — and the
full-rebuild flag is consumed. -/
theorem C5_display_option_full_rebuild (t : DataTable) (selected : List String)
    (opts : DisplayOpts) (st : PreviewState)
    (hrows : t.rows ≠ [])
    (hf : t.has_filename = true) (hd : t.has_directory = true) (hg : t.has_group = true)
    (hgi : t.has_group_id = true) (hth : t.has_threshold = true)
    (hselne : selected ≠ [])
    (hgrp : ∀ g ∈ selected, group_rows t g ≠ []) :
    (update_preview (some t) selected opts
        (on_display_option_changed st)).rendered_sheets.map (fun e => e.name) = selected ∧
    (∀ e ∈ (update_preview (some t) selected opts
        (on_display_option_changed st)).rendered_sheets,
      render_entry t opts e.name = some e ∧ e.sheet.opts = opts) ∧
    (update_preview (some t) selected opts
      (on_display_option_changed st)).force_full_rebuild = false := by
  rw [update_preview_force t selected opts (on_display_option_changed st)
    hrows hf hd hg hgi hth hselne rfl]
  obtain ⟨es, hren, hesnames, hesrender, _, hforce'⟩ :=
    update_preview_core_spec t selected opts
      { clear_preview (on_display_option_changed st) with force_full_rebuild := false }
      hgrp hselne
  have hclear : ({ clear_preview (on_display_option_changed st) with
      force_full_rebuild := false } : PreviewState).rendered_sheets = [] := rfl
  have hes_all : es.map (fun e => e.name) = selected := by
    rw [hesnames, hclear]
    apply List.filter_eq_self.mpr
    intro a _
    rfl
  have hren' : (update_preview_core t selected opts
      { clear_preview (on_display_option_changed st) with
        force_full_rebuild := false }).rendered_sheets = es := by
    rw [hren, hclear]
    rfl
  refine ⟨?_, ?_, hforce'⟩
  · rw [hren', hes_all]
  · intro e he
    rw [hren'] at he
    have hr := hesrender e he
    exact ⟨hr, (render_entry_props hr).2.1⟩

/-- Concrete table for the C5 witness. -/
def c5Table : DataTable :=
  ⟨[⟨"g1_a.tif", "/d", "g1", 1, 5, none⟩, ⟨"g2_b.tif", "/d", "g2", 2, 5, none⟩],
    true, true, true, true, true⟩

/-- Concrete pre-toggle state for the C5 witness: both sheets cached with
the old display options (no log scale). -/
def c5State : PreviewState :=
  ⟨[⟨"g1", 1, ⟨"g1", 1, [⟨"g1_a.tif", "/d", "g1", 1, 5, none⟩], ⟨false, false⟩⟩⟩,
    ⟨"g2", 2, ⟨"g2", 2, [⟨"g2_b.tif", "/d", "g2", 2, 5, none⟩], ⟨false, false⟩⟩⟩],
   ["g1", "g2"], false⟩

/-- Witness for C5: turning on log scale and rebuilding re-renders both
selected groups with the new options. -/
theorem C5_display_option_full_rebuild_witness :
    (update_preview (some c5Table) ["g1", "g2"] ⟨true, false⟩
        (on_display_option_changed c5State)).rendered_sheets.map (fun e => e.name) =
      ["g1", "g2"] ∧
    (∀ e ∈ (update_preview (some c5Table) ["g1", "g2"] ⟨true, false⟩
        (on_display_option_changed c5State)).rendered_sheets,
      render_entry c5Table ⟨true, false⟩ e.name = some e ∧ e.sheet.opts = ⟨true, false⟩) ∧
    (update_preview (some c5Table) ["g1", "g2"] ⟨true, false⟩
      (on_display_option_changed c5State)).force_full_rebuild = false :=
  C5_display_option_full_rebuild c5Table ["g1", "g2"] ⟨true, false⟩ c5State
    (by decide) rfl rfl rfl rfl rfl (by decide) (by decide)

lemma update_preview_nil_sel (t : DataTable) (opts : DisplayOpts) (st : PreviewState) :
    update_preview (some t) [] opts st = clear_preview st := by
  unfold update_preview
  by_cases h1 : t.rows.isEmpty = true
  · simp [h1]
  · by_cases h2 : (!(t.has_filename && t.has_directory && t.has_group &&
        t.has_group_id)) = true
    · simp [h1, h2]
    · by_cases h3 : (!t.has_threshold) = true
      · simp [h1, h2, h3]
      · simp [h1, h2, h3]

lemma filter_beq_singleton (l : List String) (a : String) (hnd : l.Nodup) (ha : a ∈ l) :
    l.filter (fun x => x == a) = [a] := by
  induction l with
  | nil => cases ha
  | cons x xs ih =>
    rcases List.mem_cons.mp ha with rfl | hmem
    · have hrest : xs.filter (fun y => y == a) = [] := by
        apply List.filter_eq_nil_iff.mpr
        intro y hy hbeq
        exact (List.nodup_cons.mp hnd).1 ((beq_iff_eq.mp hbeq) ▸ hy)
      simp [List.filter_cons, hrest]
    · have hne : x ≠ a := fun h => (List.nodup_cons.mp hnd).1 (h ▸ hmem)
      simp only [List.filter_cons, beq_eq_false_iff_ne.mpr hne]
      simpa using ih (List.nodup_cons.mp hnd).2 hmem

/-- C4: with fixed table and display options, deselecting one group and
reselecting it (each change followed by its debounced rebuild) yields a
sheet cache that is, as a set of (group, Group_ID, content) entries, the
cache from before the two toggles. -/
theorem C4_toggle_roundtrip (t : DataTable) (selected : List String) (opts : DisplayOpts)
    (st : PreviewState) (g : String)
    (hrows : t.rows ≠ [])
    (hcf : t.has_filename = true) (hcd : t.has_directory = true) (hcg : t.has_group = true)
    (hcgi : t.has_group_id = true) (hcth : t.has_threshold = true)
    (hselnd : selected.Nodup) (hgsel : g ∈ selected)
    (hforce : st.force_full_rebuild = false)
    (hnd : (st.rendered_sheets.map (fun e => e.name)).Nodup)
    (hnames : (st.rendered_sheets.map (fun e => e.name)).Perm selected)
    (hwf : ∀ e ∈ st.rendered_sheets, render_entry t opts e.name = some e)
    (hgrp : ∀ g₁ ∈ selected, group_rows t g₁ ≠ []) :
    ((update_preview (some t) selected opts
        (update_preview (some t) (selected.erase g) opts st)).rendered_sheets).Perm
      st.rendered_sheets := by
  have hselne : selected ≠ [] := List.ne_nil_of_mem hgsel
  by_cases herase : selected.erase g = []
  · rw [herase, update_preview_nil_sel,
      update_preview_eq_core t selected opts (clear_preview st)
        hrows hcf hcd hcg hcgi hcth hselne hforce]
    obtain ⟨es, hren, hesnames, hesrender, _, _⟩ :=
      update_preview_core_spec t selected opts (clear_preview st) hgrp hselne
    have hclear : (clear_preview st).rendered_sheets = [] := rfl
    have hes_all : es.map (fun e => e.name) = selected := by
      rw [hesnames, hclear]
      apply List.filter_eq_self.mpr
      intro a _
      rfl
    have hren' : (update_preview_core t selected opts (clear_preview st)).rendered_sheets =
        es := by
      rw [hren, hclear]
      rfl
    rw [hren']
    have h₁ : es = selected.filterMap (fun n => render_entry t opts n) := by
      have h := cacheEntry_eq_filterMap_render t opts es hesrender
      rw [hes_all] at h
      exact h
    have h₂ := cacheEntry_eq_filterMap_render t opts st.rendered_sheets hwf
    have h₃ := (hnames.filterMap (fun n => render_entry t opts n)).symm
    rw [h₁]
    have h₄ : List.Perm (selected.filterMap (fun n => render_entry t opts n))
        ((st.rendered_sheets.map (fun e => e.name)).filterMap
          (fun n => render_entry t opts n)) := h₃
    rw [← h₂] at h₄
    exact h₄
  · rw [update_preview_eq_core t (selected.erase g) opts st
      hrows hcf hcd hcg hcgi hcth herase hforce]
    obtain ⟨es₁, hren₁, hesnames₁, _, _, hforce₁⟩ :=
      update_preview_core_spec t (selected.erase g) opts st
        (fun g₁ hg₁ => hgrp g₁ (List.mem_of_mem_erase hg₁)) herase
    have hes₁nil : es₁ = [] := by
      apply List.map_eq_nil_iff.mp
      rw [hesnames₁]
      apply List.filter_eq_nil_iff.mpr
      intro x hx hbx
      have hxN : x ∈ st.rendered_sheets.map (fun e => e.name) :=
        hnames.mem_iff.mpr (List.mem_of_mem_erase hx)
      rw [(contains_iff _ _).mpr hxN] at hbx
      cases hbx
    have hK₁ : (update_preview_core t (selected.erase g) opts st).rendered_sheets =
        st.rendered_sheets.filter (fun e => (selected.erase g).contains e.name) := by
      rw [hren₁, hes₁nil, List.append_nil]
    have hforce₁' : (update_preview_core t (selected.erase g) opts st).force_full_rebuild =
        false := by
      rw [hforce₁]
      exact hforce
    rw [update_preview_eq_core t selected opts _
      hrows hcf hcd hcg hcgi hcth hselne hforce₁']
    obtain ⟨es₂, hren₂, hesnames₂, hesrender₂, _, _⟩ :=
      update_preview_core_spec t selected opts
        (update_preview_core t (selected.erase g) opts st) hgrp hselne
    have hkeep : (update_preview_core t (selected.erase g) opts st).rendered_sheets.filter
        (fun e => selected.contains e.name) =
        (update_preview_core t (selected.erase g) opts st).rendered_sheets := by
      apply List.filter_eq_self.mpr
      intro e he
      rw [hK₁] at he
      have hm : e.name ∈ selected.erase g := (contains_iff _ _).mp (List.mem_filter.mp he).2
      exact (contains_iff _ _).mpr (List.mem_of_mem_erase hm)
    obtain ⟨e₀, he₀, he₀name⟩ := List.mem_map.mp (hnames.mem_iff.mpr hgsel)
    have hN₁ : ∀ x, x ∈ ((update_preview_core t (selected.erase g) opts st).rendered_sheets.map
        (fun e => e.name)) ↔ (x ∈ selected ∧ x ≠ g) := by
      intro x
      rw [hK₁]
      constructor
      · intro hx
        obtain ⟨e, he, hxe⟩ := List.mem_map.mp hx
        obtain ⟨hel, hpred⟩ := List.mem_filter.mp he
        have hxer : x ∈ selected.erase g := hxe ▸ (contains_iff _ _).mp hpred
        exact ⟨List.mem_of_mem_erase hxer, ((List.Nodup.mem_erase_iff hselnd).mp hxer).1⟩
      · rintro ⟨hxs, hxg⟩
        have hxer : x ∈ selected.erase g := (List.mem_erase_of_ne hxg).mpr hxs
        obtain ⟨e, he, hxe⟩ := List.mem_map.mp (hnames.mem_iff.mpr hxs)
        exact List.mem_map.mpr
          ⟨e, List.mem_filter.mpr ⟨he, (contains_iff _ _).mpr (hxe ▸ hxer)⟩, hxe⟩
    have hes₂names : es₂.map (fun e => e.name) = [g] := by
      rw [hesnames₂]
      have hcongr : selected.filter
          (fun x => !((update_preview_core t (selected.erase g) opts
            st).rendered_sheets.map (fun e => e.name)).contains x) =
          selected.filter (fun x => x == g) := by
        apply List.filter_congr
        intro x hxsel
        by_cases hxg : x = g
        · subst hxg
          have hnotin : x ∉ (update_preview_core t (selected.erase x) opts
              st).rendered_sheets.map (fun e => e.name) :=
            fun hc => ((hN₁ x).mp hc).2 rfl
          rw [Bool.eq_false_iff.mpr (fun hc => hnotin ((contains_iff _ _).mp hc))]
          simp
        · have hin : x ∈ (update_preview_core t (selected.erase g) opts
              st).rendered_sheets.map (fun e => e.name) := (hN₁ x).mpr ⟨hxsel, hxg⟩
          rw [(contains_iff _ _).mpr hin]
          simp [hxg]
      rw [hcongr]
      exact filter_beq_singleton selected g hselnd hgsel
    obtain ⟨e₂, hes₂⟩ : ∃ e₂, es₂ = [e₂] := by
      cases hes : es₂ with
      | nil =>
        rw [hes] at hes₂names
        cases hes₂names
      | cons e₂ tl =>
        cases htl : tl with
        | nil => exact ⟨e₂, rfl⟩
        | cons e₃ tl₂ =>
          rw [hes, htl] at hes₂names
          cases hes₂names
    have he₂name : e₂.name = g := by
      rw [hes₂] at hes₂names
      simpa using hes₂names
    have he₂render : render_entry t opts g = some e₂ := by
      have h := hesrender₂ e₂ (by rw [hes₂]; exact List.mem_cons_self _ _)
      rw [he₂name] at h
      exact h
    have he₀e₂ : e₀ = e₂ := by
      have h₀ := hwf e₀ he₀
      rw [he₀name] at h₀
      exact Option.some.inj (h₀.symm.trans he₂render)
    rw [hren₂, hkeep, hK₁, hes₂, ← he₀e₂]
    have hcongr₂ : st.rendered_sheets.filter
        (fun e => !((selected.erase g).contains e.name)) =
        st.rendered_sheets.filter (fun e => e.name == g) := by
      apply List.filter_congr
      intro e he
      have hensel : e.name ∈ selected := hnames.mem_iff.mp (List.mem_map_of_mem _ he)
      by_cases heg : e.name = g
      · have hnm : e.name ∉ selected.erase g := by
          rw [heg]
          exact hselnd.not_mem_erase
        rw [Bool.eq_false_iff.mpr (fun hc => hnm ((contains_iff _ _).mp hc))]
        simp [heg]
      · have hm : e.name ∈ selected.erase g := (List.mem_erase_of_ne heg).mpr hensel
        rw [(contains_iff _ _).mpr hm]
        simp [heg]
    have hneg : st.rendered_sheets.filter
        (fun e => !((selected.erase g).contains e.name)) = [e₀] := by
      rw [hcongr₂]
      exact filter_name_eq_singleton st.rendered_sheets e₀ g hnd he₀ he₀name
    rw [← hneg]
    exact List.filter_append_perm _ st.rendered_sheets

/-- Concrete table for the C4 witness. -/
def c4Table : DataTable :=
  ⟨[⟨"g1_a.tif", "/d", "g1", 1, 5, none⟩, ⟨"g2_b.tif", "/d", "g2", 2, 5, none⟩],
    true, true, true, true, true⟩

/-- Concrete well-rendered state for the C4 witness: both groups cached
exactly as rendering them now would produce. -/
def c4State : PreviewState :=
  ⟨[⟨"g1", 1, ⟨"g1", 1, [⟨"g1_a.tif", "/d", "g1", 1, 5, none⟩], ⟨false, false⟩⟩⟩,
    ⟨"g2", 2, ⟨"g2", 2, [⟨"g2_b.tif", "/d", "g2", 2, 5, none⟩], ⟨false, false⟩⟩⟩],
   ["g1", "g2"], false⟩

/-- Witness for C4: deselecting `"g1"` and reselecting it restores the
original two-sheet cache up to dict order. -/
theorem C4_toggle_roundtrip_witness :
    ((update_preview (some c4Table) ["g1", "g2"] ⟨false, false⟩
        (update_preview (some c4Table) (["g1", "g2"].erase "g1") ⟨false, false⟩
          c4State)).rendered_sheets).Perm c4State.rendered_sheets :=
  C4_toggle_roundtrip c4Table ["g1", "g2"] ⟨false, false⟩ c4State "g1"
    (by decide) rfl rfl rfl rfl rfl (by decide) (by decide) rfl (by decide) (by decide)
    (by decide) (by decide)

/-- Witness for C9 at a concrete Start New run over two grouped files. -/
theorem C9_group_id_invariants_witness :
    (⟨"g1_a.tif", "/d", "g1", 1, 0, none⟩ : FileRow) ∈
      start_new_full ["/d/g1_a.tif", "/d/g2_b.tif"]
        (get_grouped_files ⟨true, .underscore, 0, 1⟩ ["/d/g1_a.tif", "/d/g2_b.tif"])
        true true ∧
    ((("g1" : String) = "" → (1 : Nat) = 0) ∧ (("g1" : String) ≠ "" → 0 < (1 : Nat)) ∧
      ∀ r₂ ∈ start_new_full ["/d/g1_a.tif", "/d/g2_b.tif"]
          (get_grouped_files ⟨true, .underscore, 0, 1⟩ ["/d/g1_a.tif", "/d/g2_b.tif"])
          true true,
        (("g1" : String) = r₂.group → (1 : Nat) = r₂.group_id) ∧
        (("g1" : String) ≠ r₂.group → ("g1" : String) ≠ "" → r₂.group ≠ "" →
          (1 : Nat) ≠ r₂.group_id)) :=
  ⟨by decide,
   C9_group_id_invariants ⟨true, .underscore, 0, 1⟩ ["/d/g1_a.tif", "/d/g2_b.tif"]
     ["/d/g1_a.tif", "/d/g2_b.tif"] true true
     ⟨"g1_a.tif", "/d", "g1", 1, 0, none⟩ (by decide)⟩
